import Mathlib

/-!
Verification development for the `nrrddate` calendar core
(`src/nrrddate/nrrddate.py`).

The recurrence engine, master-view builder and query engine are embedded
shallowly.  Conventions of the embedding:

* Python `datetime` values are modelled as `Int` seconds relative to the
  Unix epoch (1970-01-01 00:00:00); the `1969-01-01` query origin is the
  constant `origin`.  A `datetime` object is always truthy in Python, so a
  modelled timestamp carries no truthiness test.
* Python strings are Lean `String`s; the string operations used by the
  source (`lower`, `split` on a one-character separator, `strip`,
  substring membership, `startswith`/`endswith`, `replace(c, "")`) are
  defined below over the character list of the string.
* External library calls (`dateutil.parser.parse`,
  `dateutil.rrule.rrule`, Python's `int()`) are not part of the
  repository; they are modelled from the spec, with each such definition
  carrying a doc comment that says so.
* Python runtime errors that the source can raise (`AttributeError` from
  calling a method on `None`, `TypeError` from ordering `None` against a
  `datetime`) are made explicit with `Except PyErr`.
-/

namespace Nrrddate

/-- Timestamps in seconds relative to the Unix epoch. -/
abbrev Time := Int

/-- Python exception outcomes that the embedded code can produce. -/
inductive PyErr where
  | attributeError
  | typeError
  | searchError
deriving DecidableEq, Repr

deriving instance DecidableEq for Except

/-- ASCII lower-casing of one character (models `str.lower` on the ASCII
inputs the grammars use). -/
def lowerChar (c : Char) : Char :=
  if 'A' ≤ c ∧ c ≤ 'Z' then Char.ofNat (c.toNat + 32) else c

/-- Models Python `str.lower()`. -/
def lowerStr (s : String) : String :=
  String.mk (s.toList.map lowerChar)

/-- Split a character list on a separator character; mirrors Python
`str.split(sep)` for a one-character separator (`"".split(sep) = [""]`). -/
def splitOnCharL (c : Char) : List Char → List (List Char)
  | [] => [[]]
  | ch :: rest =>
    match splitOnCharL c rest with
    | [] => if ch = c then [[], []] else [[ch]]
    | g :: gs => if ch = c then [] :: g :: gs else (ch :: g) :: gs

/-- Models Python `s.split(c)` for a one-character separator. -/
def splitChar (c : Char) (s : String) : List String :=
  (splitOnCharL c s.toList).map String.mk

/-- Whitespace recognised by Python `str.strip()` / `int()`. -/
def isSpaceChar (c : Char) : Bool :=
  c = ' ' ∨ c = '\t' ∨ c = '\n' ∨ c = '\r'

/-- Models Python `str.strip()`. -/
def stripStr (s : String) : String :=
  String.mk (((s.toList.dropWhile isSpaceChar).reverse.dropWhile isSpaceChar).reverse)

/-- Boolean prefix test on character lists. -/
def prefixB : List Char → List Char → Bool
  | [], _ => true
  | _ :: _, [] => false
  | a :: as, b :: bs => a = b && prefixB as bs

/-- Boolean contiguous-sublist test on character lists. -/
def infixB (p : List Char) : List Char → Bool
  | [] => p.isEmpty
  | c :: rest => prefixB p (c :: rest) || infixB p rest

/-- Models the Python substring test `needle in hay`. -/
def substrB (needle hay : String) : Bool :=
  infixB needle.toList hay.toList

/-- Models Python `s.startswith(c)` for a one-character head. -/
def startsWithChar (c : Char) (s : String) : Bool :=
  match s.toList with
  | [] => false
  | ch :: _ => ch = c

/-- Models Python `s.endswith(c)` for a one-character tail. -/
def endsWithChar (c : Char) (s : String) : Bool :=
  match s.toList.reverse with
  | [] => false
  | ch :: _ => ch = c

/-- Models Python `s.replace(c, "")`, removing every occurrence of one
character. -/
def removeChar (c : Char) (s : String) : String :=
  String.mk (s.toList.filter (fun ch => ch ≠ c))

/-- Numeric value of a decimal digit. -/
def digitVal (c : Char) : Option Nat :=
  if '0' ≤ c ∧ c ≤ '9' then some (c.toNat - 48) else none

/-- Value of a non-empty all-digit character list. -/
def digitsVal (l : List Char) : Option Nat :=
  if l.isEmpty then none
  else
    l.foldl (fun acc c =>
      match acc, digitVal c with
      | some n, some d => some (n * 10 + d)
      | _, _ => none) (some 0)

/-- Modelled from the spec: Python's builtin `int()` on a string
(`_integer_or_default` wraps it and maps failure to a default).  Accepts
surrounding whitespace and an optional sign followed by decimal digits. -/
def toIntOpt (s : String) : Option Int :=
  match (stripStr s).toList with
  | '-' :: rest => (digitsVal rest).map (fun n => -(n : Int))
  | '+' :: rest => (digitsVal rest).map (fun n => (n : Int))
  | l => (digitsVal l).map (fun n => (n : Int))

/-- Models `_integer_or_default(inputdata)` with the default left at
`None` (the only way the repository calls it). -/
def _integer_or_default (s : String) : Option Int :=
  toIntOpt s

/-- Modelled from the spec: `dateutil.parser.parse` is external to the
repository; the spec only requires that a field "must parse as a valid
absolute timestamp; otherwise null".  A datetime string is therefore
represented by an integer literal denoting its timestamp; any other
string fails to parse.  `_datetime_or_none` maps failure to `none`. -/
def _datetime_or_none (s : String) : Option Time :=
  toIntOpt s

/-- Truthiness of an optional string, as Python sees it (`None` and the
empty string are falsy). -/
def truthyS : Option String → Bool
  | none => false
  | some s => s ≠ ""

/-- The `dateutil.rrule` frequency constants imported by the source:
`YEARLY, MONTHLY, WEEKLY, DAILY, HOURLY, MINUTELY = range(6)` - in
particular `YEARLY` is the integer `0`, which is falsy in Python. -/
def frequencies : String → Option Nat
  | "YEARLY" => some 0
  | "MONTHLY" => some 1
  | "WEEKLY" => some 2
  | "DAILY" => some 3
  | "HOURLY" => some 4
  | "MINUTELY" => some 5
  | _ => none

/-- The `dateutil.rrule` weekday constants (`MO = 0` .. `SU = 6`). -/
def weekdays : String → Option Nat
  | "MO" => some 0
  | "TU" => some 1
  | "WE" => some 2
  | "TH" => some 3
  | "FR" => some 4
  | "SA" => some 5
  | "SU" => some 6
  | _ => none

/-- A stored recurrence-rule record, as consumed by
`_calc_event_recurrences` (the raw `rrule` dict of an event).  The
`date` and `except` lists hold the stored entry strings; each entry is
re-parsed with `_datetime_or_none` at expansion time, exactly as in the
source.  An absent dict key is `none`; an empty stored list and an
absent list are both falsy in Python, so a plain (possibly empty) list
suffices. -/
structure Rrule where
  freq : Option String := none
  count : Option Int := none
  «until» : Option Time := none
  interval : Option Int := none
  byminute : Option Int := none
  byhour : Option Int := none
  byweekday : Option String := none
  bymonth : Option Int := none
  bymonthday : Option Int := none
  byyearday : Option Int := none
  byweekno : Option Int := none
  bysetpos : Option Int := none
  date : List String := []
  «except» : List String := []
deriving DecidableEq, Repr

/-- Static configuration consumed by the core (`recurrence_limit`,
`first_weekday`, `default_duration` in minutes).  `first_weekday` is the
`wkst` convention handed to the expansion library; it does not influence
any property proved here and is carried for completeness. -/
structure Config where
  recurrence_limit : Int := 250
  first_weekday : Nat := 6
  default_duration : Int := 30
deriving DecidableEq, Repr

/-- The `count` actually handed to the expansion library:
`rr_count = rruleobj.get('count'); if not rr_count: rr_count =
self.recurrence_limit` (so an absent or zero count falls back to the
configured limit - there is no `min` with the limit). -/
def effectiveCount (cfg : Config) (r : Rrule) : Int :=
  match r.count with
  | none => cfg.recurrence_limit
  | some c => if c = 0 then cfg.recurrence_limit else c

/-- The `interval` actually handed to the expansion library
(`if not rr_interval: rr_interval = 1`). -/
def effectiveInterval (r : Rrule) : Int :=
  match r.interval with
  | none => 1
  | some c => if c = 0 then 1 else c

/-- Modelled from the spec: the nominal length in seconds of one
frequency period of the external expansion library (months and years are
calendar periods; the model uses 30-day months and 365-day years, which
no proved property depends on). -/
def freqStep : Nat → Int
  | 0 => 31536000
  | 1 => 2592000
  | 2 => 604800
  | 3 => 86400
  | 4 => 3600
  | _ => 60

/-- Hour of day of a modelled timestamp. -/
def hourOf (t : Time) : Int := (t % 86400) / 3600

/-- Minute of hour of a modelled timestamp. -/
def minuteOf (t : Time) : Int := (t % 3600) / 60

/-- Weekday of a modelled timestamp in `dateutil` numbering
(`MO = 0`; the epoch 1970-01-01 was a Thursday, number 3). -/
def weekdayOf (t : Time) : Int := (t / 86400 + 3) % 7

/-- Modelled from the spec: the `by*` constraints of the external
expansion library, reduced to a per-timestamp filter.  Time-of-day and
weekday constraints are exact; the calendar-structured constraints
(`bymonth`, `bymonthday`, `byyearday`, `byweekno`) use a flat 30-day
month / 360-day year approximation, and `bysetpos` (a per-period
positional selection) is not modelled.  Every property proved below
holds for an arbitrary filter, so none depends on these choices. -/
def byOk (r : Rrule) (t : Time) : Bool :=
  (match r.byminute with | none => true | some m => minuteOf t = m)
  && (match r.byhour with | none => true | some h => hourOf t = h)
  && (match r.byweekday.map (fun s => lowerStr s) with
      | none => true
      | some s =>
        match weekdays (String.mk (s.toList.map Char.toUpper)) with
        | none => true
        | some w => weekdayOf t = (w : Int))
  && (match r.bymonth with | none => true | some m => (t / 2592000) % 12 + 1 = m)
  && (match r.bymonthday with | none => true | some d => (t / 86400) % 30 + 1 = d)
  && (match r.byyearday with | none => true | some d => (t / 86400) % 360 + 1 = d)
  && (match r.byweekno with | none => true | some w => (t / 604800) % 52 + 1 = w)

/-- Modelled from the spec: the iteration core of the external expansion
library (`dateutil.rrule.rrule`).  Starting from the anchor it advances
by `step` seconds, keeps the candidates accepted by the filter, stops
after `cnt` occurrences have been produced or as soon as a candidate
lies strictly beyond the `until` cutoff (the cutoff itself is kept:
`until` is inclusive).  `fuel` bounds the number of candidates examined;
it is a termination artefact of the model with no source counterpart. -/
def rruleGen (step : Time) (ok : Time → Bool) (untl : Option Time) :
    Nat → Nat → Time → List Time
  | 0, _, _ => []
  | _ + 1, 0, _ => []
  | fuel + 1, cnt + 1, t =>
    if match untl with | some u => decide (u < t) | none => false then []
    else if ok t then t :: rruleGen step ok untl fuel cnt (t + step)
    else rruleGen step ok untl fuel (cnt + 1) (t + step)

/-- Candidate budget handed to `rruleGen`; a termination artefact of the
model (the external library iterates without such a bound). -/
def genFuel (cnt : Nat) : Nat := cnt * 64 + 64

/-- Modelled from the spec: `list(rr_rrule(freq, dtstart=..., ...))` for
a recognised frequency number. -/
def rr_rrule (cfg : Config) (r : Rrule) (freqNum : Nat) (dtStart : Time) : List Time :=
  let cnt := (effectiveCount cfg r).toNat
  rruleGen (freqStep freqNum * effectiveInterval r) (byOk r) r.«until» (genFuel cnt) cnt dtStart

/-- Merge the explicitly listed `date` entries into the algorithmic set:
each entry is re-parsed and appended when valid and not already present
(lines 397-403 of the source). -/
def mergeDates (acc : List Time) (dates : List String) : List Time :=
  dates.foldl (fun a e =>
    match _datetime_or_none e with
    | some t => if t ∈ a then a else a ++ [t]
    | none => a) acc

/-- Remove the explicitly listed `except` entries: each entry is
re-parsed and, when valid and present, the first matching element is
removed (lines 404-410 of the source; Python `list.remove`). -/
def removeExcepts (acc : List Time) (exs : List String) : List Time :=
  exs.foldl (fun a e =>
    match _datetime_or_none e with
    | some t => if t ∈ a then a.erase t else a
    | none => a) acc

/-- Ordering relation used to model Python `list.sort()` /`sorted` on
timestamps. -/
def timeLe (a b : Time) : Prop := a ≤ b

instance : DecidableRel timeLe := fun a b => Int.decLe a b

instance : IsTotal Time timeLe := ⟨fun a b => Int.le_total a b⟩

instance : IsTrans Time timeLe := ⟨fun _ _ _ h h' => Int.le_trans h h'⟩

/-- Resolution of the stored `freq` string to a `dateutil` frequency
number (`rr_freqstr.upper()` looked up in the `frequencies` dict; a
falsy string resolves to nothing). -/
def rrFreqOf (r : Rrule) : Option Nat :=
  match r.freq with
  | none => none
  | some s => if s ≠ "" then frequencies (String.mk (s.toList.map Char.toUpper)) else none

/-- The sorted expansion of a rule with resolved frequency number `n`:
algorithmic set, `date` merge, `except` removal, final sort (lines
382-412 of the source). -/
def allRecurrences (cfg : Config) (r : Rrule) (n : Nat) (dt_start : Time) : List Time :=
  (removeExcepts (mergeDates (rr_rrule cfg r n dt_start) r.date) r.«except»).insertionSort timeLe

/-- Embeds `_calc_event_recurrences(rruleobj, dt_start, past)` (lines
322-425 of the source).  `now` is the value of `datetime.now()` taken at
entry.  Returns `none` exactly when the frequency handed to the library
would be falsy - an absent or unrecognised `freq`, or `YEARLY`, whose
`dateutil` constant is the falsy integer `0`. -/
def _calc_event_recurrences (cfg : Config) (now : Time) (rruleobj : Rrule)
    (dt_start : Time) (past : Bool) : Option (List Time) :=
  match rrFreqOf rruleobj with
  | some n =>
    if n ≠ 0 then
      let sortedAll := allRecurrences cfg rruleobj n dt_start
      some (if past then sortedAll else sortedAll.filter (fun t => now ≤ t))
    else none
  | none => none

/-- Embeds `calc_next_recurrence(rrule, dt_start, dt_end)` (lines
1931-1954): the first entry of the future-only expansion, with the end
shifted by the event's duration; `(none, none)` when the expansion is
`None` or empty. -/
def calc_next_recurrence (cfg : Config) (now : Time) (rrule : Rrule)
    (dt_start dt_end : Time) : Option Time × Option Time :=
  match _calc_event_recurrences cfg now rrule dt_start false with
  | some (t :: _) => (some t, some (t + (dt_end - dt_start)))
  | _ => (none, none)

/-- An event as returned by `parse_event` (lines 3644-3698): `alias` is
lower-cased when truthy, `calendar` defaults to `"default"` and is
lower-cased when truthy, the timestamps are never `None` (for records on
which `parse_event` does not raise - see `parse_event_times`), and
string fields keep their stored values.  The Python `datetime` values
`start`/`end` are always truthy. -/
structure Event where
  «alias» : Option String := none
  calendar : String := "default"
  description : Option String := none
  location : Option String := none
  tags : List String := []
  start : Time := 0
  «end» : Time := 0
  rrule : Option Rrule := none
  notes : Option String := none
deriving DecidableEq, Repr

instance : Inhabited Event := ⟨{}⟩

/-- One master-view entry: the dict
`data = uid / start / end` built in `_calc_master_view`. -/
structure Occ where
  uid : String
  start : Time
  «end» : Time
deriving DecidableEq, Repr

/-- Sort key used on master-view entries
(`sorted(unsorted_view, key=lambda x: x['start'])`). -/
def occLe (a b : Occ) : Prop := a.start ≤ b.start

instance : DecidableRel occLe := fun a b => Int.decLe a.start b.start

instance : IsTotal Occ occLe := ⟨fun a b => Int.le_total a.start b.start⟩

instance : IsTrans Occ occLe := ⟨fun _ _ _ h h' => Int.le_trans h h'⟩

/-- The occurrences one event contributes to the master view (the body
of the per-event loop of `_calc_master_view`, lines 430-455): one entry
per expanded start with the event's duration; a single entry from the
event's own start/end when the event has no rule or when the expansion
is `None` or empty. -/
def eventOccurrences (cfg : Config) (now : Time) (uid : String) (event : Event) :
    List Occ :=
  let duration := event.«end» - event.start
  match event.rrule with
  | some r =>
    match _calc_event_recurrences cfg now r event.start true with
    | some recurrences =>
      if recurrences.isEmpty then [⟨uid, event.start, event.«end»⟩]
      else recurrences.map (fun recur => ⟨uid, recur, recur + duration⟩)
    | none => [⟨uid, event.start, event.«end»⟩]
  | none => [⟨uid, event.start, event.«end»⟩]

/-- Embeds `_calc_master_view` (lines 427-456): concatenate every
event's occurrences in store order, then sort by start with Python's
stable sort. -/
def _calc_master_view (cfg : Config) (now : Time) (events : List (String × Event)) :
    List Occ :=
  let unsorted_view := (events.map (fun p => eventOccurrences cfg now p.1 p.2)).flatten
  unsorted_view.insertionSort occLe

/-- A row of the working list `this_events` in `perform_search`: in the
`recur` branch these are master-view entries (start/end always
present); in the other branch `start`/`end` come from
`calc_next_recurrence` and can be `None`. -/
structure Row where
  uid : String
  start : Option Time
  «end» : Option Time
deriving DecidableEq, Repr

/-- Sort key for `this_events` rows; only applied to rows whose starts
are all present (otherwise the source raises `TypeError` first), so the
default for an absent start is never reached. -/
def rowLe (a b : Row) : Prop := a.start.getD 0 ≤ b.start.getD 0

instance : DecidableRel rowLe := fun a b => Int.decLe (a.start.getD 0) (b.start.getD 0)

instance : IsTotal Row rowLe := ⟨fun a b => Int.le_total (a.start.getD 0) (b.start.getD 0)⟩

instance : IsTrans Row rowLe := ⟨fun _ _ _ h h' => Int.le_trans h h'⟩

/-- A parsed search or exclude expression: the Python dict as an
association list in construction order; a duplicated key is resolved to
its last binding, as in a dict comprehension. -/
abbrev Dict := List (String × String)

/-- Python `d.get(k)`: the last binding of `k`. -/
def dGet (d : Dict) (k : String) : Option String :=
  (d.reverse.find? (fun p => p.1 = k)).map (fun p => p.2)

/-- The event record a row refers back to
(`event = self.parse_event(entry['uid'])`).  Rows are only ever built
from stored uids, so the default for an unknown uid is never reached. -/
def eventFor (events : List (String × Event)) (uid : String) : Event :=
  ((events.find? (fun p => p.1 = uid)).map (fun p => p.2)).getD default

/-- The pre-1970 origin used for open-ended ranges:
`datetime(1969, 1, 1, 0, 0, 0, tzinfo=timezone.utc)`. -/
def origin : Time := -31536000

/-- Embeds the helper `_parse_dt_range` (lines 3861-3904): the `~X`,
`X~`, `A~B` and bare forms, the fallback of an unparsable bound to the
origin-to-now range, and the widening of a midnight end bound to the
last second of its day. -/
def _parse_dt_range (now : Time) (timestr : String) : Time × Time :=
  let pair : Option Time × Option Time :=
    if startsWithChar '~' timestr then
      (some origin, _datetime_or_none (removeChar '~' timestr))
    else if endsWithChar '~' timestr then
      (_datetime_or_none (removeChar '~' timestr), some now)
    else if substrB "~" timestr then
      let times := splitChar '~' timestr
      (_datetime_or_none (stripStr (times.getD 0 "")),
       _datetime_or_none (stripStr (times.getD 1 "")))
    else
      (_datetime_or_none timestr, _datetime_or_none timestr)
  let b := pair.1.getD origin
  let e := match pair.2 with
    | none => now
    | some e0 => if hourOf e0 = 0 ∧ minuteOf e0 = 0 then e0 - e0 % 86400 + 86399 else e0
  (b, e)

/-- Exclude test for `uid` (lines 4010-4013): drop on exact match of
the row uid. -/
def xr_uid (d : Dict) (entry : Row) : Bool :=
  match dGet d "uid" with
  | some v => v ≠ "" && (entry.uid ≠ "" && v = entry.uid)
  | none => false

/-- Exclude test for `alias` (lines 4014-4017): drop on exact match. -/
def xr_alias (d : Dict) (event : Event) : Bool :=
  match dGet d "alias", event.«alias» with
  | some v, some a => v ≠ "" && (a ≠ "" && v = a)
  | _, _ => false

/-- Exclude test for `calendar` (lines 4018-4021): drop on substring
containment. -/
def xr_calendar (d : Dict) (event : Event) : Bool :=
  match dGet d "calendar" with
  | some v => v ≠ "" && (event.calendar ≠ "" && substrB v event.calendar)
  | none => false

/-- Exclude test for a lower-cased substring field (`description`,
lines 4022-4025; `location`, lines 4026-4029). -/
def xrStr (v? : Option String) (fieldVal : Option String) : Bool :=
  match v?, fieldVal with
  | some v, some s => v ≠ "" && (s ≠ "" && substrB v (lowerStr s))
  | _, _ => false

/-- Exclude test for `tags` (lines 4030-4034): drop when any `+`-listed
tag is held by the event. -/
def xr_tags (d : Dict) (event : Event) : Bool :=
  match dGet d "tags" with
  | some v =>
    v ≠ "" && (!event.tags.isEmpty &&
      (splitChar '+' v).any (fun tag => decide (tag ∈ event.tags)))
  | none => false

/-- Exclude test for a datetime range field (`start`, lines 4035-4043;
`end`, lines 4044-4052): against the row's value when `recur` is set,
against the event's own value otherwise. -/
def xr_range (v? : Option String) (recur : Bool) (now : Time)
    (entryT : Option Time) (eventT : Time) : Bool :=
  match v? with
  | some v =>
    v ≠ "" &&
      (let p := _parse_dt_range now v
       if recur then p.1 ≤ entryT.getD 0 && entryT.getD 0 ≤ p.2
       else p.1 ≤ eventT && eventT ≤ p.2)
  | none => false

/-- Exclude test for `notes` (lines 4053-4056); unlike the search side
the stored notes are not lower-cased here. -/
def xr_notes (d : Dict) (event : Event) : Bool :=
  match dGet d "notes", event.notes with
  | some v, some n => v ≠ "" && (n ≠ "" && substrB v n)
  | _, _ => false

/-- The per-row exclusion test of the exclude loop (lines 4007-4056):
`remove` becomes true as soon as any provided exclude field matches. -/
def excludeRemoveRow (d : Dict) (recur : Bool) (now : Time) (entry : Row)
    (event : Event) : Bool :=
  xr_uid d entry || xr_alias d event || xr_calendar d event ||
    xrStr (dGet d "description") event.description ||
    xrStr (dGet d "location") event.location || xr_tags d event ||
    xr_range (dGet d "start") recur now entry.start event.start ||
    xr_range (dGet d "end") recur now entry.«end» event.«end» ||
    xr_notes d event

/-- Search test for `uid` (lines 4085-4088): remove unless exactly
equal (a row with a falsy uid is kept). -/
def sr_uid (d : Dict) (entry : Row) : Bool :=
  match dGet d "uid" with
  | some v => v ≠ "" && (entry.uid ≠ "" && v ≠ entry.uid)
  | none => false

/-- Search test for `alias` (lines 4089-4094): remove unless exactly
equal; a missing alias removes. -/
def sr_alias (d : Dict) (event : Event) : Bool :=
  match dGet d "alias" with
  | some v =>
    v ≠ "" &&
      (match event.«alias» with
       | some a => if a ≠ "" then decide (v ≠ a) else true
       | none => true)
  | none => false

/-- Search test for `calendar` (lines 4095-4101): remove unless the
value is contained in the event's calendar. -/
def sr_calendar (d : Dict) (event : Event) : Bool :=
  match dGet d "calendar" with
  | some v =>
    v ≠ "" && (if event.calendar ≠ "" then !substrB v event.calendar else true)
  | none => false

/-- Search test for a lower-cased substring field (`description`,
lines 4102-4108; `location`, lines 4109-4115). -/
def srStr (v? : Option String) (fieldVal : Option String) : Bool :=
  match v? with
  | some v =>
    v ≠ "" &&
      (match fieldVal with
       | some s => if s ≠ "" then !substrB v (lowerStr s) else true
       | none => true)
  | none => false

/-- Search test for `tags` (lines 4116-4126): keep when any `+`-listed
tag is held by the event, remove otherwise. -/
def sr_tags (d : Dict) (event : Event) : Bool :=
  match dGet d "tags" with
  | some v =>
    v ≠ "" &&
      !(!event.tags.isEmpty &&
        (splitChar '+' v).any (fun tag => decide (tag ∈ event.tags)))
  | none => false

/-- Search test for a datetime range field (`start`, lines 4127-4137;
`end`, lines 4138-4148): against the row's value when `recur` is set,
against the event's own value otherwise. -/
def sr_range (v? : Option String) (recur : Bool) (now : Time)
    (entryT : Option Time) (eventT : Time) : Bool :=
  match v? with
  | some v =>
    v ≠ "" &&
      (let p := _parse_dt_range now v
       if recur then !(p.1 ≤ entryT.getD 0 && entryT.getD 0 ≤ p.2)
       else !(p.1 ≤ eventT && eventT ≤ p.2))
  | none => false

/-- Search test for `notes` (lines 4149-4154): both the value and the
stored notes are lower-cased. -/
def sr_notes (d : Dict) (event : Event) : Bool :=
  match dGet d "notes" with
  | some v =>
    v ≠ "" &&
      (match event.notes with
       | some n => if n ≠ "" then !substrB (lowerStr v) (lowerStr n) else true
       | none => true)
  | none => false

/-- The per-row removal test of the search loop (lines 4082-4156):
`remove` becomes true as soon as any provided search field fails to
match, so a row survives exactly when every provided field matches. -/
def searchRemoveRow (d : Dict) (recur : Bool) (now : Time) (entry : Row)
    (event : Event) : Bool :=
  sr_uid d entry || sr_alias d event || sr_calendar d event ||
    srStr (dGet d "description") event.description ||
    srStr (dGet d "location") event.location || sr_tags d event ||
    sr_range (dGet d "start") recur now entry.start event.start ||
    sr_range (dGet d "end") recur now entry.«end» event.«end» ||
    sr_notes d event

/-- The exclude half of `perform_search` (lines 3994-4063): collect the
rows any exclude field matches, then delete them one at a time with
`list.remove` (first value match). -/
def excludePhase (d? : Option Dict) (recur : Bool) (now : Time)
    (events : List (String × Event)) (this_events : List Row) : List Row :=
  match d? with
  | none => this_events
  | some d =>
    let exclude_list :=
      this_events.filter (fun en => excludeRemoveRow d recur now en (eventFor events en.uid))
    exclude_list.foldl (fun acc e => acc.erase e) this_events

/-- The search half of `perform_search` (lines 4067-4160): collect the
rows some provided search field fails on, then delete them one at a
time with `list.remove`. -/
def searchPhase (d? : Option Dict) (recur : Bool) (now : Time)
    (events : List (String × Event)) (this_events : List Row) : List Row :=
  match d? with
  | none => this_events
  | some d =>
    let not_match :=
      this_events.filter (fun en => searchRemoveRow d recur now en (eventFor events en.uid))
    not_match.foldl (fun acc e => acc.erase e) this_events

/-- The row built for one event in the non-`recur` branch of
`perform_search` (lines 3976-3989). -/
def nextRow (cfg : Config) (now : Time) (uid : String) (event : Event) : Row :=
  match event.rrule with
  | some r =>
    let p := calc_next_recurrence cfg now r event.start event.«end»
    ⟨uid, p.1, p.2⟩
  | none => ⟨uid, some event.start, some event.«end»⟩

/-- The working list `this_events` (lines 3972-3990).  In the
non-`recur` branch the rows carry each event's next occurrence and are
sorted by it; Python raises `TypeError` when the sort compares a `None`
next-start against another value, which happens exactly when the list
has at least two rows and one of them has no next occurrence. -/
def buildThisEvents (cfg : Config) (now : Time) (events : List (String × Event))
    (recur : Bool) : Except PyErr (List Row) :=
  if recur then
    .ok ((_calc_master_view cfg now events).map (fun o => ⟨o.uid, some o.start, some o.«end»⟩))
  else
    let rows := events.map (fun p => nextRow cfg now p.1 p.2)
    if rows.length ≤ 1 then .ok rows
    else if rows.any (fun r => r.start.isNone) then .error .typeError
    else .ok (rows.insertionSort rowLe)

/-- The recognised query fields (lines 3917-3927). -/
def search_criteria : List String :=
  ["uid=", "calendar=", "description=", "location=", "alias=", "tags=",
   "start=", "end=", "notes="]

/-- Builds the Python dict
`dict((k.strip(), v.strip()) for k, v in (item.split('=') for item in s.split(',')))`,
failing like the `ValueError` branch when some comma item does not split
on `=` into exactly two parts. -/
def parsePairs (s : String) : Except PyErr Dict :=
  let parts := (splitChar ',' s).map (splitChar '=')
  if parts.all (fun p => p.length = 2) then
    .ok (parts.map (fun p => (stripStr (p.getD 0 ""), stripStr (p.getD 1 ""))))
  else .error .searchError

/-- Parsing of the search half (lines 3929-3949): empty is no filter,
the literal `any` is no filter, a term without a recognised field is a
description search, otherwise a `field=value` dict or an error. -/
def parseSearchHalf (s : String) : Except PyErr (Option Dict) :=
  if s ≠ "" then
    if s = "any" then .ok none
    else if !(search_criteria.any (fun c => substrB c s)) then
      .ok (some [("description", stripStr s)])
    else (parsePairs s).map some
  else .ok none

/-- Parsing of the exclude half (lines 3952-3970); unlike the search
half there is no `any` token. -/
def parseExcludeHalf : Option String → Except PyErr (Option Dict)
  | none => .ok none
  | some s =>
    if s ≠ "" then
      if !(search_criteria.any (fun c => substrB c s)) then
        .ok (some [("description", stripStr s)])
      else (parsePairs s).map some
    else .ok none

/-- The term-splitting and parsing head of `perform_search` (lines
3906-3970): split on `%`, lower-case both halves, parse each half. -/
def parseTerm (term : String) : Except PyErr (Option Dict × Option Dict) :=
  let halves : String × Option String :=
    if substrB "%" term then
      let parts := splitChar '%' term
      (lowerStr (parts.getD 0 ""), some (lowerStr (parts.getD 1 "")))
    else (lowerStr term, none)
  match parseSearchHalf halves.1 with
  | .error e => .error e
  | .ok search? =>
    match parseExcludeHalf halves.2 with
    | .error e => .error e
    | .ok exclude? => .ok (search?, exclude?)

/-- Embeds `perform_search(term, recur)` (lines 3838-4162) end to end:
parse the term, build the working list, apply the exclude pass then the
search pass. -/
def perform_search (cfg : Config) (now : Time) (events : List (String × Event))
    (term : String) (recur : Bool) : Except PyErr (List Row) :=
  match parseTerm term with
  | .error e => .error e
  | .ok halves =>
    match buildThisEvents cfg now events recur with
    | .error e => .error e
    | .ok this₀ =>
      let this₁ := excludePhase halves.2 recur now events this₀
      .ok (searchPhase halves.1 recur now events this₁)

/-- The recognised recurrence keys of `parse_rrule` (lines 3712-3729). -/
def rrule_criteria : List String :=
  ["date=", "except=", "freq=", "count=", "until=", "interval=", "byhour=",
   "byweekday=", "bymonth=", "bymonthday=", "byyearday=", "byweekno=",
   "bysetpos="]

/-- Sort key for stored timestamp-list entries: `parse_rrule` sorts the
parsed `date`/`except` values; the model keeps the (all valid) entry
strings ordered by their parse value. -/
def dtKeyLe (a b : String) : Prop :=
  (_datetime_or_none a).getD 0 ≤ (_datetime_or_none b).getD 0

instance : DecidableRel dtKeyLe :=
  fun a b => Int.decLe ((_datetime_or_none a).getD 0) ((_datetime_or_none b).getD 0)

/-- The validated timestamp list for a `date`/`except` value: split on
commas, drop entries that do not parse, sort by parsed value (lines
3740-3756).  The model keeps each surviving entry as its string, since
expansion re-parses the stored entries. -/
def parseDtList (v : String) : List String :=
  ((splitChar ',' v).filter (fun e => (_datetime_or_none e).isSome)).insertionSort dtKeyLe

/-- Embeds `parse_rrule(expression)` (lines 3700-3836).  When no
recognised key occurs in the expression, and likewise when some `;`
item does not split on `=` into exactly two parts, the source sets
`rrule = None` and then unconditionally evaluates `rrule.get('date')`,
which raises `AttributeError`; both paths are the error case here.
Otherwise each recognised field is validated independently exactly as
in the source (including the quirk that a zero `byhour` is discarded by
the `if rr_byhour:` truthiness test).  A `byminute` key is not
validated by the source and flows through as a raw string; the model
coerces it with the integer parse. -/
def parse_rrule (expression : String) : Except PyErr Rrule :=
  let expr := lowerStr expression
  if !(rrule_criteria.any (fun c => substrB c expr)) then
    .error .attributeError
  else
    let parts := (splitChar ';' expr).map (splitChar '=')
    if !(parts.all (fun p => p.length = 2)) then .error .attributeError
    else
      let d : Dict := parts.map (fun p => (stripStr (p.getD 0 ""), stripStr (p.getD 1 "")))
      let getT := fun (k : String) =>
        match dGet d k with
        | some v => if v ≠ "" then some v else none
        | none => none
      let rangeInt := fun (k : String) (lo hi : Int) =>
        match getT k with
        | some v =>
          match _integer_or_default v with
          | some x => if x ≠ 0 then (if lo ≤ x ∧ x ≤ hi then some x else none) else none
          | none => none
        | none => none
      .ok {
        freq :=
          match getT "freq" with
          | some v =>
            let up := String.mk (v.toList.map Char.toUpper)
            if ["MINUTELY", "HOURLY", "DAILY", "WEEKLY", "MONTHLY", "YEARLY"].contains up
            then some up else none
          | none => none
        count := (getT "count").bind _integer_or_default
        «until» := (getT "until").bind _datetime_or_none
        interval := (getT "interval").bind _integer_or_default
        byminute := (getT "byminute").bind _integer_or_default
        byhour := rangeInt "byhour" 0 23
        byweekday :=
          match getT "byweekday" with
          | some v =>
            let up := String.mk (v.toList.map Char.toUpper)
            if ["SU", "MO", "TU", "WE", "TH", "FR", "SA"].contains up
            then some up else none
          | none => none
        bymonth := rangeInt "bymonth" 1 12
        bymonthday := rangeInt "bymonthday" 1 31
        byyearday := rangeInt "byyearday" 1 366
        byweekno := rangeInt "byweekno" 1 53
        bysetpos := (getT "bysetpos").bind _integer_or_default
        date := match getT "date" with | some v => parseDtList v | none => []
        «except» := match getT "except" with | some v => parseDtList v | none => []
      }

/-- Embeds `_calc_duration(expression)` (lines 265-289): the first
digit run immediately preceding each of `d`, `h`, `m` in the
lower-cased expression, with the configured default duration when the
total is zero. -/
def findNumBeforeA (c : Char) : Option Nat → List Char → Option Nat
  | _, [] => none
  | run, x :: rest =>
    if x = c then
      match run with
      | some v => some v
      | none => findNumBeforeA c none rest
    else
      match digitVal x with
      | some dg => findNumBeforeA c (some ((run.getD 0) * 10 + dg)) rest
      | none => findNumBeforeA c none rest

/-- Models `re.search(r"\d+X", expression)` for a literal trailing
character `X`: the value of the leftmost digit run immediately followed
by `X`. -/
def findNumBefore (c : Char) (s : String) : Option Nat :=
  findNumBeforeA c none s.toList

/-- Embeds `_calc_duration` (lines 265-289). -/
def _calc_duration (cfg : Config) (expression : String) : Int :=
  let e := lowerStr expression
  let days := ((findNumBefore 'd' e).getD 0 : Int)
  let hours := ((findNumBefore 'h' e).getD 0 : Int)
  let minutes := ((findNumBefore 'm' e).getD 0 : Int)
  let duration := days * 86400 + hours * 3600 + minutes * 60
  if duration = 0 then cfg.default_duration * 60 else duration

/-- Embeds `_calc_relative_datetime(reference, duration, prior)` (lines
458-481) on the string-duration path used by `_calc_end_dt`. -/
def _calc_relative_datetime (cfg : Config) (reference : Time) (duration : String)
    (prior : Bool) : Time :=
  let seconds := _calc_duration cfg duration
  if prior then reference - seconds else reference + seconds

/-- Embeds `_calc_end_dt(dt_start, end)` (lines 291-320).  When `end`
is the Python value `None` the source evaluates `None.startswith('+')`
and raises `AttributeError`. -/
def _calc_end_dt (cfg : Config) (dt_start : Time) (endArg : Option String) :
    Except PyErr Time :=
  match endArg.bind _datetime_or_none with
  | some t => .ok t
  | none =>
    match endArg with
    | none => .error .attributeError
    | some s =>
      if startsWithChar '+' s then
        .ok (_calc_relative_datetime cfg dt_start (removeChar '+' s) false)
      else
        .ok (_calc_relative_datetime cfg dt_start s false)

/-- The timestamp part of `parse_event` (lines 3675-3687): the stored
`start`/`end` strings (absent = `none`), the failsafe that replaces a
missing or unparsable start with `now`, and the end fallback, which
calls `_calc_end_dt(event['start'], None)` with a literal `None`. -/
def parse_event_times (cfg : Config) (now : Time) (startRaw endRaw : Option String) :
    Except PyErr (Time × Time) :=
  let start :=
    match startRaw with
    | some v => if v ≠ "" then (_datetime_or_none v).getD now else now
    | none => now
  let endV : Option Time :=
    match endRaw with
    | some v => if v ≠ "" then _datetime_or_none v else none
    | none => none
  match endV with
  | some t => .ok (start, t)
  | none => (_calc_end_dt cfg start none).map (fun t => (start, t))

/-! Helper lemmas about the expansion pipeline. -/

theorem rruleGen_length_le (step : Time) (ok : Time → Bool) (untl : Option Time) :
    ∀ (fuel cnt : Nat) (t : Time), (rruleGen step ok untl fuel cnt t).length ≤ cnt
  | 0, _, _ => by simp [rruleGen]
  | _ + 1, 0, _ => by simp [rruleGen]
  | fuel + 1, cnt + 1, t => by
    simp only [rruleGen]
    split
    · simp
    · split
      · simpa using Nat.succ_le_succ (rruleGen_length_le step ok untl fuel cnt (t + step))
      · exact rruleGen_length_le step ok untl fuel (cnt + 1) (t + step)

theorem rruleGen_le_until (step : Time) (ok : Time → Bool) (U : Time) :
    ∀ (fuel cnt : Nat) (t x : Time), x ∈ rruleGen step ok (some U) fuel cnt t → x ≤ U
  | 0, _, _, _, h => by simp [rruleGen] at h
  | _ + 1, 0, _, _, h => by simp [rruleGen] at h
  | fuel + 1, cnt + 1, t, x, h => by
    simp only [rruleGen] at h
    by_cases hu : U < t
    · simp [hu] at h
    · rw [if_neg (by simp [hu])] at h
      by_cases hok : ok t
      · rw [if_pos hok] at h
        rcases List.mem_cons.mp h with rfl | h'
        · exact le_of_not_lt hu
        · exact rruleGen_le_until step ok U fuel cnt (t + step) x h'
      · rw [if_neg (by simp [hok])] at h
        exact rruleGen_le_until step ok U fuel (cnt + 1) (t + step) x h

theorem rruleGen_mem_form (step : Time) (ok : Time → Bool) (untl : Option Time) :
    ∀ (fuel cnt : Nat) (t x : Time), x ∈ rruleGen step ok untl fuel cnt t →
      ∃ k : Nat, x = t + k * step
  | 0, _, _, _, h => by simp [rruleGen] at h
  | _ + 1, 0, _, _, h => by simp [rruleGen] at h
  | fuel + 1, cnt + 1, t, x, h => by
    simp only [rruleGen] at h
    split at h
    · simp at h
    · split at h
      · rcases List.mem_cons.mp h with rfl | h
        · exact ⟨0, by simp⟩
        · obtain ⟨k, hk⟩ := rruleGen_mem_form step ok untl fuel cnt (t + step) x h
          refine ⟨k + 1, ?_⟩
          rw [hk]; push_cast; ring
      · obtain ⟨k, hk⟩ := rruleGen_mem_form step ok untl fuel (cnt + 1) (t + step) x h
        refine ⟨k + 1, ?_⟩
        rw [hk]; push_cast; ring

theorem rruleGen_nodup (step : Time) (ok : Time → Bool) (untl : Option Time)
    (hstep : step ≠ 0) :
    ∀ (fuel cnt : Nat) (t : Time), (rruleGen step ok untl fuel cnt t).Nodup
  | 0, _, _ => by simp [rruleGen]
  | _ + 1, 0, _ => by simp [rruleGen]
  | fuel + 1, cnt + 1, t => by
    simp only [rruleGen]
    split
    · simp
    · split
      · refine List.nodup_cons.mpr ⟨fun hmem => ?_, rruleGen_nodup step ok untl hstep fuel cnt (t + step)⟩
        obtain ⟨k, hk⟩ := rruleGen_mem_form step ok untl fuel cnt (t + step) t hmem
        have hzero : ((k : Int) + 1) * step = 0 := by
          have h0 : step + (k : Int) * step = 0 := by linarith [hk]
          calc ((k : Int) + 1) * step = step + (k : Int) * step := by ring
          _ = 0 := h0
        rcases mul_eq_zero.mp hzero with h1 | h2
        · have hk0 : (0 : Int) ≤ (k : Int) := Int.natCast_nonneg k
          omega
        · exact hstep h2
      · exact rruleGen_nodup step ok untl hstep fuel (cnt + 1) (t + step)

theorem mergeDates_cons (acc : List Time) (e : String) (ds : List String) :
    mergeDates acc (e :: ds) =
      mergeDates (match _datetime_or_none e with
        | some t => if t ∈ acc then acc else acc ++ [t]
        | none => acc) ds := rfl

theorem subset_mergeDates : ∀ (ds : List String) (acc : List Time), acc ⊆ mergeDates acc ds
  | [], _ => List.Subset.refl _
  | e :: ds, acc => by
    rw [mergeDates_cons]
    refine List.Subset.trans ?_ (subset_mergeDates ds _)
    cases _datetime_or_none e with
    | none => exact List.Subset.refl _
    | some t =>
      by_cases ht : t ∈ acc
      · simp [ht]
      · simp only [ht, if_false]
        exact List.subset_append_left _ _

theorem mem_mergeDates : ∀ (ds : List String) (acc : List Time) (x : Time),
    x ∈ mergeDates acc ds → x ∈ acc ∨ ∃ e ∈ ds, _datetime_or_none e = some x
  | [], acc, x, h => Or.inl h
  | e :: ds, acc, x, h => by
    rw [mergeDates_cons] at h
    rcases mem_mergeDates ds _ x h with h' | ⟨e', he', hp⟩
    · revert h'
      cases hpe : _datetime_or_none e with
      | none => exact fun h' => Or.inl h'
      | some t =>
        by_cases ht : t ∈ acc
        · simp only [ht, if_true]
          exact fun h' => Or.inl h'
        · simp only [ht, if_false]
          intro h'
          rcases List.mem_append.mp h' with h'' | h''
          · exact Or.inl h''
          · refine Or.inr ⟨e, List.mem_cons_self e ds, ?_⟩
            simp at h''
            rw [hpe, h'']
    · exact Or.inr ⟨e', List.mem_cons_of_mem e he', hp⟩

theorem mergeDates_mem_of : ∀ (ds : List String) (acc : List Time) (e : String) (t : Time),
    e ∈ ds → _datetime_or_none e = some t → t ∈ mergeDates acc ds
  | [], _, _, _, he, _ => absurd he (List.not_mem_nil _)
  | e' :: ds, acc, e, t, he, hp => by
    rcases List.mem_cons.mp he with rfl | he'
    · rw [mergeDates_cons, hp]
      have h1 : t ∈ (if t ∈ acc then acc else acc ++ [t]) := by
        by_cases ht : t ∈ acc <;> simp [ht]
      exact subset_mergeDates ds _ h1
    · exact mergeDates_mem_of ds _ e t he' hp

theorem mergeDates_nodup : ∀ (ds : List String) (acc : List Time),
    acc.Nodup → (mergeDates acc ds).Nodup
  | [], _, h => h
  | e :: ds, acc, h => by
    rw [mergeDates_cons]
    refine mergeDates_nodup ds _ ?_
    cases _datetime_or_none e with
    | none => exact h
    | some t =>
      by_cases ht : t ∈ acc
      · simpa [ht] using h
      · simp only [ht, if_false]
        exact List.nodup_append.mpr
          ⟨h, List.nodup_singleton t, fun a ha hb => ht ((List.mem_singleton.mp hb) ▸ ha)⟩

theorem mergeDates_length_le : ∀ (ds : List String) (acc : List Time),
    (mergeDates acc ds).length ≤ acc.length + ds.length
  | [], acc => by simp [mergeDates]
  | e :: ds, acc => by
    rw [mergeDates_cons]
    refine le_trans (mergeDates_length_le ds _) ?_
    have hstep : (match _datetime_or_none e with
        | some t => if t ∈ acc then acc else acc ++ [t]
        | none => acc).length ≤ acc.length + 1 := by
      cases _datetime_or_none e with
      | none => simp
      | some t =>
        by_cases ht : t ∈ acc
        · simp [ht]
        · simp [ht]
    simp only [List.length_cons]
    omega

theorem removeExcepts_cons (acc : List Time) (e : String) (exs : List String) :
    removeExcepts acc (e :: exs) =
      removeExcepts (match _datetime_or_none e with
        | some t => if t ∈ acc then acc.erase t else acc
        | none => acc) exs := rfl

theorem removeExcepts_subset : ∀ (exs : List String) (acc : List Time),
    removeExcepts acc exs ⊆ acc
  | [], _ => List.Subset.refl _
  | e :: exs, acc => by
    rw [removeExcepts_cons]
    refine List.Subset.trans (removeExcepts_subset exs _) ?_
    cases _datetime_or_none e with
    | none => exact List.Subset.refl _
    | some t =>
      by_cases ht : t ∈ acc
      · simp only [ht, if_true]
        exact List.erase_subset t acc
      · simp only [ht, if_false]
        exact List.Subset.refl _

theorem removeExcepts_nodup : ∀ (exs : List String) (acc : List Time),
    acc.Nodup → (removeExcepts acc exs).Nodup
  | [], _, h => h
  | e :: exs, acc, h => by
    rw [removeExcepts_cons]
    refine removeExcepts_nodup exs _ ?_
    cases _datetime_or_none e with
    | none => exact h
    | some t =>
      by_cases ht : t ∈ acc
      · simpa [ht] using h.erase t
      · simpa [ht] using h

theorem removeExcepts_length_le : ∀ (exs : List String) (acc : List Time),
    (removeExcepts acc exs).length ≤ acc.length
  | [], _ => le_refl _
  | e :: exs, acc => by
    rw [removeExcepts_cons]
    refine le_trans (removeExcepts_length_le exs _) ?_
    cases _datetime_or_none e with
    | none => exact le_refl _
    | some t =>
      by_cases ht : t ∈ acc
      · simp only [ht, if_true]
        exact (List.erase_sublist t acc).length_le
      · simp [ht]

theorem removeExcepts_mem_of : ∀ (exs : List String) (acc : List Time) (t : Time),
    t ∈ acc → (∀ e ∈ exs, _datetime_or_none e ≠ some t) → t ∈ removeExcepts acc exs
  | [], _, _, h, _ => h
  | e :: exs, acc, t, h, hne => by
    rw [removeExcepts_cons]
    refine removeExcepts_mem_of exs _ t ?_ (fun e' he' => hne e' (List.mem_cons_of_mem e he'))
    cases hpe : _datetime_or_none e with
    | none => exact h
    | some t' =>
      have htt : t ≠ t' := by
        intro rfl'
        exact hne e (List.mem_cons_self e exs) (by rw [hpe, rfl'])
      by_cases ht' : t' ∈ acc
      · simp only [ht', if_true]
        exact (List.mem_erase_of_ne htt).mpr h
      · simpa [ht'] using h

theorem removeExcepts_not_mem : ∀ (exs : List String) (acc : List Time) (e : String) (t : Time),
    acc.Nodup → e ∈ exs → _datetime_or_none e = some t → t ∉ removeExcepts acc exs
  | [], _, _, _, _, he, _ => absurd he (List.not_mem_nil _)
  | e' :: exs, acc, e, t, hnd, he, hp => by
    rcases List.mem_cons.mp he with rfl | he'
    · rw [removeExcepts_cons, hp]
      intro hmem
      have hsub := removeExcepts_subset exs (if t ∈ acc then acc.erase t else acc)
      have : t ∈ (if t ∈ acc then acc.erase t else acc) := hsub hmem
      by_cases ht : t ∈ acc
      · rw [if_pos ht] at this
        exact absurd ((hnd.mem_erase_iff).mp this).1 (by simp)
      · rw [if_neg ht] at this
        exact ht this
    · rw [removeExcepts_cons]
      refine removeExcepts_not_mem exs _ e t ?_ he' hp
      cases _datetime_or_none e' with
      | none => exact hnd
      | some t' =>
        by_cases ht' : t' ∈ acc
        · simpa [ht'] using hnd.erase t'
        · simpa [ht'] using hnd

theorem freqStep_pos (n : Nat) : 0 < freqStep n := by
  unfold freqStep
  split <;> norm_num

theorem effectiveInterval_ne_zero (r : Rrule) : effectiveInterval r ≠ 0 := by
  unfold effectiveInterval
  cases r.interval with
  | none => norm_num
  | some c =>
    by_cases hc : c = 0
    · simp [hc]
    · simp [hc]

theorem rr_rrule_length_le (cfg : Config) (r : Rrule) (n : Nat) (s : Time) :
    (rr_rrule cfg r n s).length ≤ (effectiveCount cfg r).toNat := by
  unfold rr_rrule
  exact rruleGen_length_le _ _ _ _ _ _

theorem rr_rrule_nodup (cfg : Config) (r : Rrule) (n : Nat) (s : Time) :
    (rr_rrule cfg r n s).Nodup := by
  unfold rr_rrule
  exact rruleGen_nodup _ _ _
    (mul_ne_zero (freqStep_pos n).ne' (effectiveInterval_ne_zero r)) _ _ _

theorem rr_rrule_le_until {cfg : Config} {r : Rrule} {n : Nat} {s U x : Time}
    (hU : r.«until» = some U) (h : x ∈ rr_rrule cfg r n s) : x ≤ U := by
  unfold rr_rrule at h
  rw [hU] at h
  exact rruleGen_le_until _ _ U _ _ _ x h

theorem allRecurrences_perm (cfg : Config) (r : Rrule) (n : Nat) (s : Time) :
    (allRecurrences cfg r n s).Perm
      (removeExcepts (mergeDates (rr_rrule cfg r n s) r.date) r.«except») :=
  List.perm_insertionSort _ _

theorem allRecurrences_length_le (cfg : Config) (r : Rrule) (n : Nat) (s : Time) :
    (allRecurrences cfg r n s).length ≤ (effectiveCount cfg r).toNat + r.date.length := by
  rw [(allRecurrences_perm cfg r n s).length_eq]
  refine le_trans (removeExcepts_length_le _ _) ?_
  refine le_trans (mergeDates_length_le _ _) ?_
  exact Nat.add_le_add_right (rr_rrule_length_le cfg r n s) _

theorem allRecurrences_mem {cfg : Config} {r : Rrule} {n : Nat} {s x : Time}
    (h : x ∈ allRecurrences cfg r n s) :
    x ∈ rr_rrule cfg r n s ∨ ∃ e ∈ r.date, _datetime_or_none e = some x := by
  have h1 := (allRecurrences_perm cfg r n s).mem_iff.mp h
  exact mem_mergeDates r.date _ x (removeExcepts_subset r.«except» _ h1)

theorem allRecurrences_mem_of_date {cfg : Config} {r : Rrule} {n : Nat} {s : Time}
    {e : String} {t : Time} (he : e ∈ r.date) (hp : _datetime_or_none e = some t)
    (hx : ∀ x ∈ r.«except», _datetime_or_none x ≠ some t) :
    t ∈ allRecurrences cfg r n s :=
  (allRecurrences_perm cfg r n s).mem_iff.mpr
    (removeExcepts_mem_of _ _ t (mergeDates_mem_of r.date _ e t he hp) hx)

theorem allRecurrences_not_mem_except {cfg : Config} {r : Rrule} {n : Nat} {s : Time}
    {e : String} {t : Time} (he : e ∈ r.«except») (hp : _datetime_or_none e = some t) :
    t ∉ allRecurrences cfg r n s := fun h =>
  removeExcepts_not_mem _ _ e t (mergeDates_nodup _ _ (rr_rrule_nodup cfg r n s)) he hp
    ((allRecurrences_perm cfg r n s).mem_iff.mp h)

theorem allRecurrences_nodup (cfg : Config) (r : Rrule) (n : Nat) (s : Time) :
    (allRecurrences cfg r n s).Nodup :=
  ((allRecurrences_perm cfg r n s).nodup_iff).mpr
    (removeExcepts_nodup _ _ (mergeDates_nodup _ _ (rr_rrule_nodup cfg r n s)))

theorem allRecurrences_sorted_lt (cfg : Config) (r : Rrule) (n : Nat) (s : Time) :
    (allRecurrences cfg r n s).Sorted (fun a b => a < b) := by
  have hle : (allRecurrences cfg r n s).Sorted (fun a b => a ≤ b) :=
    (List.sorted_insertionSort timeLe _).imp (fun h => h)
  exact hle.lt_of_le (allRecurrences_nodup cfg r n s)

theorem calc_event_recurrences_eq_some {cfg : Config} {now : Time} {r : Rrule}
    {s : Time} {past : Bool} {l : List Time} :
    _calc_event_recurrences cfg now r s past = some l ↔
      ∃ n, rrFreqOf r = some n ∧ n ≠ 0 ∧
        l = (if past then allRecurrences cfg r n s
             else (allRecurrences cfg r n s).filter (fun t => now ≤ t)) := by
  unfold _calc_event_recurrences
  cases hf : rrFreqOf r with
  | none => simp
  | some n =>
    by_cases hn : n = 0
    · subst hn
      simp
    · simp only [hn, if_true, Ne, not_false_iff, Option.some_inj]
      constructor
      · exact fun h => ⟨n, rfl, hn, h.symm⟩
      · rintro ⟨n', hn', _, hl⟩
        subst hn'
        exact hl.symm

/-! Helper lemmas about the removal loops and the stable sort. -/

theorem foldl_erase_cons_of_ne {α : Type} [DecidableEq α] (a : α) :
    ∀ (xs t : List α), (∀ x ∈ xs, x ≠ a) →
      xs.foldl (fun acc e => acc.erase e) (a :: t) =
        a :: xs.foldl (fun acc e => acc.erase e) t
  | [], _, _ => rfl
  | x :: xs, t, h => by
    have hxa : x ≠ a := h x (List.mem_cons_self x xs)
    simp only [List.foldl_cons]
    rw [List.erase_cons_tail (by simpa using Ne.symm hxa)]
    exact foldl_erase_cons_of_ne a xs (t.erase x)
      (fun y hy => h y (List.mem_cons_of_mem x hy))

theorem foldl_erase_filter {α : Type} [DecidableEq α] (p : α → Bool) :
    ∀ l : List α,
      (l.filter p).foldl (fun acc e => acc.erase e) l = l.filter (fun x => !p x)
  | [] => rfl
  | a :: t => by
    by_cases hpa : p a
    · rw [List.filter_cons_of_pos hpa]
      simp only [List.foldl_cons]
      rw [List.erase_cons_head, foldl_erase_filter p t,
        List.filter_cons_of_neg (by simp [hpa])]
    · rw [List.filter_cons_of_neg (by simpa using hpa)]
      rw [foldl_erase_cons_of_ne a (t.filter p) t
        (fun x hx hxa => hpa (hxa ▸ (List.mem_filter.mp hx).2))]
      rw [foldl_erase_filter p t, List.filter_cons_of_pos (by simpa using hpa)]

theorem filter_orderedInsert_occ_eq (k : Int) (a : Occ) (ha : a.start = k) :
    ∀ l : List Occ,
      (l.orderedInsert occLe a).filter (fun x => decide (x.start = k)) =
        a :: l.filter (fun x => decide (x.start = k))
  | [] => by simp [List.orderedInsert, ha]
  | b :: l => by
    simp only [List.orderedInsert]
    by_cases hab : occLe a b
    · rw [if_pos hab]
      simp [ha]
    · rw [if_neg hab]
      have hb : b.start ≠ k := by
        intro hbk
        exact hab (show a.start ≤ b.start by rw [ha, hbk])
      rw [List.filter_cons_of_neg (by simp [hb]),
        filter_orderedInsert_occ_eq k a ha l,
        List.filter_cons_of_neg (by simp [hb])]

theorem filter_orderedInsert_occ_ne (k : Int) (a : Occ) (ha : ¬a.start = k) :
    ∀ l : List Occ,
      (l.orderedInsert occLe a).filter (fun x => decide (x.start = k)) =
        l.filter (fun x => decide (x.start = k))
  | [] => by simp [List.orderedInsert, ha]
  | b :: l => by
    simp only [List.orderedInsert]
    by_cases hab : occLe a b
    · rw [if_pos hab, List.filter_cons_of_neg (by simp [ha])]
    · rw [if_neg hab]
      by_cases hbk : b.start = k
      · rw [List.filter_cons_of_pos (by simp [hbk]),
          filter_orderedInsert_occ_ne k a ha l,
          List.filter_cons_of_pos (by simp [hbk])]
      · rw [List.filter_cons_of_neg (by simp [hbk]),
          filter_orderedInsert_occ_ne k a ha l,
          List.filter_cons_of_neg (by simp [hbk])]

theorem filter_insertionSort_occ (k : Int) :
    ∀ l : List Occ,
      (l.insertionSort occLe).filter (fun x => decide (x.start = k)) =
        l.filter (fun x => decide (x.start = k))
  | [] => rfl
  | a :: l => by
    simp only [List.insertionSort]
    by_cases hak : a.start = k
    · rw [filter_orderedInsert_occ_eq k a hak, filter_insertionSort_occ k l,
        List.filter_cons_of_pos (by simp [hak])]
    · rw [filter_orderedInsert_occ_ne k a hak, filter_insertionSort_occ k l,
        List.filter_cons_of_neg (by simp [hak])]

/-! Claim theorems. -/

/-- Claim C1, counterexample: with `recurrence_limit = 2` and `count = 3`
the expansion of a daily rule holds 3 occurrences, exceeding
`min(count, recurrenceLimit) = 2` - the source caps at `count` alone
whenever `count` is set. -/
theorem claim1_counterexample :
    _calc_event_recurrences ⟨2, 6, 30⟩ 0 {freq := some "DAILY", count := some 3} 0 true
        = some [0, 86400, 172800] ∧
      ¬((3 : Nat) ≤ min 3 2) :=
  ⟨by decide, by decide⟩

/-- Claim C1, as amended: for every rule whose expansion returns a list,
the list holds at most `count` entries when `count` is set and nonzero,
`recurrenceLimit` entries otherwise, plus at most one entry per stored
`date` entry; in particular a rule with no `count` and no `date`
entries expands to at most `recurrenceLimit` occurrences (with or
without `until`).  The limit does not cap an explicit `count`. -/
theorem claim1_expansion_bound :
    (∀ (cfg : Config) (now : Time) (r : Rrule) (s : Time) (past : Bool) (l : List Time),
        _calc_event_recurrences cfg now r s past = some l →
        l.length ≤ (effectiveCount cfg r).toNat + r.date.length) ∧
    (∀ (cfg : Config) (now : Time) (r : Rrule) (s : Time) (past : Bool) (l : List Time),
        r.count = none → r.date = [] →
        _calc_event_recurrences cfg now r s past = some l →
        l.length ≤ cfg.recurrence_limit.toNat) := by
  have main : ∀ (cfg : Config) (now : Time) (r : Rrule) (s : Time) (past : Bool) (l : List Time),
      _calc_event_recurrences cfg now r s past = some l →
      l.length ≤ (effectiveCount cfg r).toNat + r.date.length := by
    intro cfg now r s past l h
    obtain ⟨n, hf, hn, hl⟩ := calc_event_recurrences_eq_some.mp h
    subst hl
    cases past with
    | true => simpa using allRecurrences_length_le cfg r n s
    | false =>
      refine le_trans ?_ (allRecurrences_length_le cfg r n s)
      simpa using List.length_filter_le _ (allRecurrences cfg r n s)
  refine ⟨main, fun cfg now r s past l hc hd h => ?_⟩
  have hb := main cfg now r s past l h
  rw [hd] at hb
  simp only [List.length_nil, Nat.add_zero] at hb
  unfold effectiveCount at hb
  rw [hc] at hb
  exact hb

/-- Claim C1, witness: a daily rule with no `count`, no `until` and no
`date` entries, expanded under `recurrence_limit = 2`, yields 2
occurrences, within the limit. -/
theorem claim1_witness :
    _calc_event_recurrences ⟨2, 6, 30⟩ 0 {freq := some "DAILY"} 0 true = some [0, 86400] ∧
      ([0, 86400] : List Time).length ≤ (2 : Int).toNat :=
  ⟨by decide,
   claim1_expansion_bound.2 ⟨2, 6, 30⟩ 0 {freq := some "DAILY"} 0 true [0, 86400]
     rfl rfl (by decide)⟩

/-- Claim C7, counterexample: a stored `date` entry is merged into the
final list with no regard to `until`, so a rule with `until = 0` and
`date = [86400]` expands to a list containing `86400 > 0`, refuting
"every occurrence start in the final expanded list is `≤ U`". -/
theorem claim7_counterexample :
    _calc_event_recurrences ⟨250, 6, 30⟩ 0
        {freq := some "DAILY", «until» := some 0, date := ["86400"]} 0 true
        = some [0, 86400] ∧
      ¬((86400 : Time) ≤ 0) :=
  ⟨by decide, by decide⟩

/-- Claim C7, as amended: for a rule with `until = U`, every entry of
the final expanded list is either `≤ U` (this covers the whole
algorithmic set, with the cutoff inclusive) or stems from an explicit
`date` entry, which the source merges without applying the `until`
cutoff. -/
theorem claim7_until_bound :
    ∀ (cfg : Config) (now : Time) (r : Rrule) (s : Time) (past : Bool) (l : List Time)
      (U t : Time),
      r.«until» = some U → _calc_event_recurrences cfg now r s past = some l → t ∈ l →
      t ≤ U ∨ ∃ e ∈ r.date, _datetime_or_none e = some t := by
  intro cfg now r s past l U t hU h ht
  obtain ⟨n, hf, hn, hl⟩ := calc_event_recurrences_eq_some.mp h
  subst hl
  have hmem : t ∈ allRecurrences cfg r n s := by
    cases past with
    | true => simpa using ht
    | false =>
      rw [if_neg (by simp)] at ht
      exact List.mem_of_mem_filter ht
  rcases allRecurrences_mem hmem with hgen | hdate
  · exact Or.inl (rr_rrule_le_until hU hgen)
  · exact Or.inr hdate

/-- Claim C7, witness: a daily rule with `until = 86400` expands to
`[0, 86400]` - the boundary occurrence exactly at `until` is included -
and the amended bound holds at the boundary entry. -/
theorem claim7_witness :
    _calc_event_recurrences ⟨250, 6, 30⟩ 0 {freq := some "DAILY", «until» := some 86400} 0 true
        = some [0, 86400] ∧
      ((86400 : Time) ≤ 86400 ∨
        ∃ e ∈ ({freq := some "DAILY", «until» := some 86400} : Rrule).date,
          _datetime_or_none e = some 86400) :=
  ⟨by decide,
   claim7_until_bound ⟨250, 6, 30⟩ 0 {freq := some "DAILY", «until» := some 86400} 0 true
     [0, 86400] 86400 86400 rfl (by decide) (by decide)⟩

/-- Claim C8, counterexample: a timestamp listed both under `date` and
under `except` is removed (the `except` pass runs after the `date`
merge), so the valid `date` entry `86400` - absent from the algorithmic
set `[0]`, as the second conjunct shows - is nevertheless missing from
the final result, refuting the claim's "each valid date entry not
already in the algorithmic set is present in the final result". -/
theorem claim8_counterexample :
    _calc_event_recurrences ⟨250, 6, 30⟩ 0
        {freq := some "DAILY", count := some 1, date := ["86400"], «except» := ["86400"]} 0 true
        = some [0] ∧
      _calc_event_recurrences ⟨250, 6, 30⟩ 0
          {freq := some "DAILY", count := some 1, date := ["86400"]} 0 true = some [0, 86400] ∧
      (86400 : Time) ∉ ([0] : List Time) :=
  ⟨by decide, by decide, by decide⟩

/-- Claim C8, as amended: in the expansion with `includePast = true`,
every valid `date` entry that no valid `except` entry matches is
present in the final result, every valid `except` entry is absent from
it, and the final result is strictly sorted ascending (hence free of
duplicate timestamps). -/
theorem claim8_merge_except_sorted :
    ∀ (cfg : Config) (now : Time) (r : Rrule) (s : Time) (l : List Time),
      _calc_event_recurrences cfg now r s true = some l →
      (∀ e ∈ r.date, ∀ t : Time, _datetime_or_none e = some t →
          (∀ x ∈ r.«except», _datetime_or_none x ≠ some t) → t ∈ l) ∧
      (∀ x ∈ r.«except», ∀ t : Time, _datetime_or_none x = some t → t ∉ l) ∧
      l.Sorted (fun a b => a < b) := by
  intro cfg now r s l h
  obtain ⟨n, hf, hn, hl⟩ := calc_event_recurrences_eq_some.mp h
  simp only [if_true] at hl
  subst hl
  exact ⟨fun e he t hp hx => allRecurrences_mem_of_date he hp hx,
    fun x hx t hp => allRecurrences_not_mem_except hx hp,
    allRecurrences_sorted_lt cfg r n s⟩

/-- Claim C8, witness: a concrete rule with one `date` entry and one
non-matching `except` entry - the merged entry is present, the excepted
timestamp absent, and the result strictly sorted. -/
theorem claim8_witness :
    _calc_event_recurrences ⟨250, 6, 30⟩ 0
        {freq := some "DAILY", count := some 1, date := ["86400"], «except» := ["300000"]} 0 true
        = some [0, 86400] ∧
      (86400 : Time) ∈ ([0, 86400] : List Time) ∧
      (∀ t : Time, _datetime_or_none "300000" = some t → t ∉ ([0, 86400] : List Time)) ∧
      ([0, 86400] : List Time).Sorted (fun a b => a < b) :=
  ⟨by decide,
   (claim8_merge_except_sorted ⟨250, 6, 30⟩ 0
       {freq := some "DAILY", count := some 1, date := ["86400"], «except» := ["300000"]} 0
       [0, 86400] (by decide)).1 "86400" (by decide) 86400 (by decide) (by decide),
   fun t hp =>
     (claim8_merge_except_sorted ⟨250, 6, 30⟩ 0
         {freq := some "DAILY", count := some 1, date := ["86400"], «except» := ["300000"]} 0
         [0, 86400] (by decide)).2.1 "300000" (by decide) t hp,
   (claim8_merge_except_sorted ⟨250, 6, 30⟩ 0
       {freq := some "DAILY", count := some 1, date := ["86400"], «except» := ["300000"]} 0
       [0, 86400] (by decide)).2.2⟩

/-- Claim C2: for every input set of events the rebuilt master view is
sorted ascending by occurrence start, is a permutation of the
concatenation of all events' occurrences in input order, and - the
stability guarantee - within every start value the entries appear in
exactly their input order (Python's `sorted` is stable; the model sorts
with a stable insertion sort). -/
theorem claim2_master_view_sorted :
    ∀ (cfg : Config) (now : Time) (events : List (String × Event)),
      (_calc_master_view cfg now events).Sorted occLe ∧
      (_calc_master_view cfg now events).Perm
        ((events.map (fun p => eventOccurrences cfg now p.1 p.2)).flatten) ∧
      (∀ k : Int,
        (_calc_master_view cfg now events).filter (fun o => decide (o.start = k)) =
          ((events.map (fun p => eventOccurrences cfg now p.1 p.2)).flatten).filter
            (fun o => decide (o.start = k))) := by
  intro cfg now events
  unfold _calc_master_view
  exact ⟨List.sorted_insertionSort occLe _, List.perm_insertionSort occLe _,
    fun k => filter_insertionSort_occ k _⟩

theorem eventOccurrences_eq_none {cfg : Config} {now : Time} {u : String} {e : Event}
    (h : e.rrule = none) :
    eventOccurrences cfg now u e = [⟨u, e.start, e.«end»⟩] := by
  unfold eventOccurrences
  rw [h]

theorem eventOccurrences_eq_some {cfg : Config} {now : Time} {u : String} {e : Event}
    {r : Rrule} (h : e.rrule = some r) :
    eventOccurrences cfg now u e =
      match _calc_event_recurrences cfg now r e.start true with
      | some recs =>
        if recs.isEmpty then [⟨u, e.start, e.«end»⟩]
        else recs.map (fun t => ⟨u, t, t + (e.«end» - e.start)⟩)
      | none => [⟨u, e.start, e.«end»⟩] := by
  unfold eventOccurrences
  rw [h]

/-- Claim C9: every emitted occurrence carries its event's uid and its
event's original duration; an event whose expansion returns a
non-empty list contributes exactly one occurrence per expanded start
with `end = start + (event.end - event.start)`; an event with no rule,
or whose expansion returns `None` or an empty list, contributes exactly
the single occurrence built from its own start/end; consequently every
stored event appears in the master view. -/
theorem claim9_occurrence_emission :
    (∀ (cfg : Config) (now : Time) (u : String) (e : Event) (o : Occ),
        o ∈ eventOccurrences cfg now u e →
        o.uid = u ∧ o.«end» - o.start = e.«end» - e.start) ∧
    (∀ (cfg : Config) (now : Time) (u : String) (e : Event) (r : Rrule) (l : List Time),
        e.rrule = some r → _calc_event_recurrences cfg now r e.start true = some l →
        l ≠ [] →
        eventOccurrences cfg now u e = l.map (fun t => ⟨u, t, t + (e.«end» - e.start)⟩)) ∧
    (∀ (cfg : Config) (now : Time) (u : String) (e : Event),
        e.rrule = none → eventOccurrences cfg now u e = [⟨u, e.start, e.«end»⟩]) ∧
    (∀ (cfg : Config) (now : Time) (u : String) (e : Event) (r : Rrule),
        e.rrule = some r →
        (_calc_event_recurrences cfg now r e.start true = none ∨
          _calc_event_recurrences cfg now r e.start true = some []) →
        eventOccurrences cfg now u e = [⟨u, e.start, e.«end»⟩]) ∧
    (∀ (cfg : Config) (now : Time) (events : List (String × Event)) (u : String) (e : Event),
        (u, e) ∈ events → ∃ o ∈ _calc_master_view cfg now events, o.uid = u) := by
  have huid : ∀ (cfg : Config) (now : Time) (u : String) (e : Event) (o : Occ),
      o ∈ eventOccurrences cfg now u e →
      o.uid = u ∧ o.«end» - o.start = e.«end» - e.start := by
    intro cfg now u e o ho
    rcases her : e.rrule with _ | r
    · rw [eventOccurrences_eq_none her] at ho
      simp only [List.mem_singleton] at ho
      subst ho
      exact ⟨rfl, rfl⟩
    · rw [eventOccurrences_eq_some her] at ho
      rcases hcalc : _calc_event_recurrences cfg now r e.start true with _ | recs
      · rw [hcalc] at ho
        simp only [List.mem_singleton] at ho
        subst ho
        exact ⟨rfl, rfl⟩
      · rw [hcalc] at ho
        have ho' : o ∈ (if recs.isEmpty = true
            then ([⟨u, e.start, e.«end»⟩] : List Occ)
            else recs.map (fun t => ⟨u, t, t + (e.«end» - e.start)⟩)) := ho
        cases hre : recs.isEmpty with
        | true =>
          rw [if_pos hre] at ho'
          simp only [List.mem_singleton] at ho'
          subst ho'
          exact ⟨rfl, rfl⟩
        | false =>
          rw [if_neg (by simp [hre])] at ho'
          rw [List.mem_map] at ho'
          obtain ⟨t, _, rfl⟩ := ho'
          exact ⟨rfl, by ring⟩
  have hnonempty : ∀ (cfg : Config) (now : Time) (u : String) (e : Event),
      eventOccurrences cfg now u e ≠ [] := by
    intro cfg now u e
    rcases her : e.rrule with _ | r
    · simp [eventOccurrences_eq_none her]
    · rw [eventOccurrences_eq_some her]
      rcases hcalc : _calc_event_recurrences cfg now r e.start true with _ | recs
      · simp
      · show (if recs.isEmpty = true then ([⟨u, e.start, e.«end»⟩] : List Occ)
            else recs.map (fun t => ⟨u, t, t + (e.«end» - e.start)⟩)) ≠ []
        cases hre : recs.isEmpty with
        | true => simp
        | false =>
          have hrn : recs ≠ [] := by simpa using hre
          simpa [List.map_eq_nil_iff] using hrn
  refine ⟨huid, ?_, ?_, ?_, ?_⟩
  · intro cfg now u e r l her hcalc hl
    rw [eventOccurrences_eq_some her, hcalc]
    simp [List.isEmpty_iff, hl]
  · intro cfg now u e her
    exact eventOccurrences_eq_none her
  · intro cfg now u e r her hcalc
    rw [eventOccurrences_eq_some her]
    rcases hcalc with hc | hc
    · rw [hc]
    · rw [hc]
      simp
  · intro cfg now events u e hmem
    obtain ⟨o, ho⟩ := List.exists_mem_of_ne_nil _ (hnonempty cfg now u e)
    refine ⟨o, ?_, (huid cfg now u e o ho).1⟩
    unfold _calc_master_view
    refine (List.perm_insertionSort occLe _).mem_iff.mpr ?_
    exact List.mem_flatten.mpr ⟨eventOccurrences cfg now u e,
      List.mem_map.mpr ⟨(u, e), hmem, rfl⟩, ho⟩

/-- Claim C9, witness: a concrete recurring event with two expanded
starts contributes exactly two occurrences, each preserving the
original one-hour duration. -/
theorem claim9_witness :
    eventOccurrences ⟨250, 6, 30⟩ 0 "u"
        {start := 0, «end» := 3600, rrule := some {freq := some "DAILY", count := some 2}} =
      [⟨"u", 0, 3600⟩, ⟨"u", 86400, 90000⟩] :=
  (claim9_occurrence_emission.2.1 ⟨250, 6, 30⟩ 0 "u"
      {start := 0, «end» := 3600, rrule := some {freq := some "DAILY", count := some 2}}
      {freq := some "DAILY", count := some 2} [0, 86400] rfl (by decide)
      (by decide)).trans (by decide)

/-- Claim C3: the source does treat an expression with no recognised
recurrence key as "not a recurrence expression" (`rrule = None`), but
it then unconditionally evaluates `rrule.get('date')`, so `parse_rrule`
raises `AttributeError` instead of returning `None` - for every such
expression. -/
theorem claim3_unrecognized_keys_raise :
    ∀ expression : String,
      rrule_criteria.any (fun c => substrB c (lowerStr expression)) = false →
      parse_rrule expression = .error .attributeError := by
  intro s h
  unfold parse_rrule
  simp [h]

/-- Claim C3, witness: the spec's own example `foo=bar` contains no
recognised key and hits the `AttributeError` path. -/
theorem claim3_witness :
    rrule_criteria.any (fun c => substrB c (lowerStr "foo=bar")) = false ∧
      parse_rrule "foo=bar" = .error .attributeError :=
  ⟨by decide, claim3_unrecognized_keys_raise "foo=bar" (by decide)⟩

/-- Claim C10: the start failsafe works as claimed (a missing or
unparsable start becomes `now`), but the end failsafe does not: for a
record whose `end` is missing or unparsable, `parse_event` calls
`_calc_end_dt(start, None)`, which evaluates `None.startswith('+')` and
raises `AttributeError` - the claimed default of start plus the
configured duration is never produced. -/
theorem claim10_parse_event_end :
    (∀ (cfg : Config) (now : Time),
        parse_event_times cfg now none (some "500") = .ok (now, 500)) ∧
    (∀ (cfg : Config) (now : Time),
        parse_event_times cfg now (some "junk") (some "500") = .ok (now, 500)) ∧
    (∀ (cfg : Config) (now : Time) (startRaw : Option String),
        parse_event_times cfg now startRaw none = .error .attributeError) ∧
    (∀ (cfg : Config) (now : Time) (startRaw : Option String) (v : String),
        _datetime_or_none v = none →
        parse_event_times cfg now startRaw (some v) = .error .attributeError) := by
  refine ⟨fun cfg now => rfl, fun cfg now => rfl, ?_, ?_⟩
  · intro cfg now startRaw
    simp [parse_event_times, _calc_end_dt, Except.map]
  · intro cfg now startRaw v hv
    by_cases hve : v = ""
    · subst hve
      simp [parse_event_times, _calc_end_dt, Except.map]
    · simp [parse_event_times, _calc_end_dt, Except.map, hve, hv]

/-- Claim C10, witness: the record `start = 0`, `end = "nope"` - the end
does not parse, and `parse_event` raises instead of defaulting. -/
theorem claim10_witness :
    _datetime_or_none "nope" = none ∧
      parse_event_times ⟨250, 6, 30⟩ 0 (some "0") (some "nope") = .error .attributeError :=
  ⟨by decide, claim10_parse_event_end.2.2.2 ⟨250, 6, 30⟩ 0 (some "0") "nope" (by decide)⟩

/-! Helper lemmas characterising the per-field query tests. -/

theorem sr_uid_eq_false {d : Dict} {entry : Row} :
    sr_uid d entry = false ↔
      ∀ v, dGet d "uid" = some v → v ≠ "" → entry.uid ≠ "" → v = entry.uid := by
  unfold sr_uid
  cases h : dGet d "uid" with
  | none => simp
  | some v => simp [h]

theorem sr_alias_eq_false {d : Dict} {event : Event} :
    sr_alias d event = false ↔
      ∀ v, dGet d "alias" = some v → v ≠ "" →
        ∃ a, event.«alias» = some a ∧ a ≠ "" ∧ v = a := by
  unfold sr_alias
  cases h : dGet d "alias" with
  | none => simp
  | some v =>
    cases ha : event.«alias» with
    | none => simp [h, ha]
    | some a =>
      by_cases haa : a = ""
      · subst haa
        simp [h, ha]
      · simp [h, ha, haa]

theorem sr_calendar_eq_false {d : Dict} {event : Event} :
    sr_calendar d event = false ↔
      ∀ v, dGet d "calendar" = some v → v ≠ "" →
        event.calendar ≠ "" ∧ substrB v event.calendar = true := by
  unfold sr_calendar
  cases h : dGet d "calendar" with
  | none => simp
  | some v =>
    by_cases hc : event.calendar = ""
    · simp [h, hc]
    · simp [h, hc]

theorem srStr_eq_false {v? : Option String} {fieldVal : Option String} :
    srStr v? fieldVal = false ↔
      ∀ v, v? = some v → v ≠ "" →
        ∃ s, fieldVal = some s ∧ s ≠ "" ∧ substrB v (lowerStr s) = true := by
  unfold srStr
  cases v? with
  | none => simp
  | some v =>
    cases hf : fieldVal with
    | none => simp [hf]
    | some s =>
      by_cases hs : s = ""
      · subst hs
        simp [hf]
      · simp [hf, hs]

theorem sr_tags_eq_false {d : Dict} {event : Event} :
    sr_tags d event = false ↔
      ∀ v, dGet d "tags" = some v → v ≠ "" →
        event.tags ≠ [] ∧ ∃ tag ∈ splitChar '+' v, tag ∈ event.tags := by
  unfold sr_tags
  cases h : dGet d "tags" with
  | none => simp
  | some v =>
    simp [h, List.isEmpty_iff, List.any_eq_true]

theorem sr_range_eq_false {v? : Option String} {recur : Bool} {now : Time}
    {entryT : Option Time} {eventT : Time} :
    sr_range v? recur now entryT eventT = false ↔
      ∀ v, v? = some v → v ≠ "" →
        (if recur then
          (_parse_dt_range now v).1 ≤ entryT.getD 0 ∧
            entryT.getD 0 ≤ (_parse_dt_range now v).2
        else
          (_parse_dt_range now v).1 ≤ eventT ∧ eventT ≤ (_parse_dt_range now v).2) := by
  unfold sr_range
  cases v? with
  | none => simp
  | some v =>
    cases recur with
    | true => simp
    | false => simp

theorem sr_notes_eq_false {d : Dict} {event : Event} :
    sr_notes d event = false ↔
      ∀ v, dGet d "notes" = some v → v ≠ "" →
        ∃ n, event.notes = some n ∧ n ≠ "" ∧ substrB (lowerStr v) (lowerStr n) = true := by
  unfold sr_notes
  cases h : dGet d "notes" with
  | none => simp
  | some v =>
    cases hn : event.notes with
    | none => simp [h, hn]
    | some n =>
      by_cases hnn : n = ""
      · subst hnn
        simp [h, hn]
      · simp [h, hn, hnn]

theorem xr_uid_eq_true {d : Dict} {entry : Row} :
    xr_uid d entry = true ↔
      ∃ v, dGet d "uid" = some v ∧ v ≠ "" ∧ entry.uid ≠ "" ∧ v = entry.uid := by
  unfold xr_uid
  cases h : dGet d "uid" with
  | none => simp
  | some v => simp [h]

theorem xr_alias_eq_true {d : Dict} {event : Event} :
    xr_alias d event = true ↔
      ∃ v a, dGet d "alias" = some v ∧ event.«alias» = some a ∧
        v ≠ "" ∧ a ≠ "" ∧ v = a := by
  unfold xr_alias
  cases h : dGet d "alias" with
  | none => simp [h]
  | some v =>
    cases ha : event.«alias» with
    | none => simp [h, ha]
    | some a => simp [h, ha]

theorem xr_calendar_eq_true {d : Dict} {event : Event} :
    xr_calendar d event = true ↔
      ∃ v, dGet d "calendar" = some v ∧ v ≠ "" ∧
        event.calendar ≠ "" ∧ substrB v event.calendar = true := by
  unfold xr_calendar
  cases h : dGet d "calendar" with
  | none => simp
  | some v => simp [h]

theorem xrStr_eq_true {v? : Option String} {fieldVal : Option String} :
    xrStr v? fieldVal = true ↔
      ∃ v s, v? = some v ∧ fieldVal = some s ∧ v ≠ "" ∧ s ≠ "" ∧
        substrB v (lowerStr s) = true := by
  unfold xrStr
  cases v? with
  | none => simp
  | some v =>
    cases hf : fieldVal with
    | none => simp [hf]
    | some s => simp [hf]

theorem xr_tags_eq_true {d : Dict} {event : Event} :
    xr_tags d event = true ↔
      ∃ v, dGet d "tags" = some v ∧ v ≠ "" ∧ event.tags ≠ [] ∧
        ∃ tag ∈ splitChar '+' v, tag ∈ event.tags := by
  unfold xr_tags
  cases h : dGet d "tags" with
  | none => simp
  | some v =>
    simp [h, List.isEmpty_iff, List.any_eq_true]

theorem xr_range_eq_true {v? : Option String} {recur : Bool} {now : Time}
    {entryT : Option Time} {eventT : Time} :
    xr_range v? recur now entryT eventT = true ↔
      ∃ v, v? = some v ∧ v ≠ "" ∧
        (if recur then
          (_parse_dt_range now v).1 ≤ entryT.getD 0 ∧
            entryT.getD 0 ≤ (_parse_dt_range now v).2
        else
          (_parse_dt_range now v).1 ≤ eventT ∧ eventT ≤ (_parse_dt_range now v).2) := by
  unfold xr_range
  cases v? with
  | none => simp
  | some v =>
    cases recur with
    | true => simp
    | false => simp

theorem xr_notes_eq_true {d : Dict} {event : Event} :
    xr_notes d event = true ↔
      ∃ v n, dGet d "notes" = some v ∧ event.notes = some n ∧
        v ≠ "" ∧ n ≠ "" ∧ substrB v n = true := by
  unfold xr_notes
  cases h : dGet d "notes" with
  | none => simp [h]
  | some v =>
    cases hn : event.notes with
    | none => simp [h, hn]
    | some n => simp [h, hn]

theorem searchPhase_eq_filter (d : Dict) (recur : Bool) (now : Time)
    (events : List (String × Event)) (this_events : List Row) :
    searchPhase (some d) recur now events this_events =
      this_events.filter
        (fun en => !searchRemoveRow d recur now en (eventFor events en.uid)) := by
  unfold searchPhase
  exact foldl_erase_filter _ this_events

theorem excludePhase_eq_filter (d : Dict) (recur : Bool) (now : Time)
    (events : List (String × Event)) (this_events : List Row) :
    excludePhase (some d) recur now events this_events =
      this_events.filter
        (fun en => !excludeRemoveRow d recur now en (eventFor events en.uid)) := by
  unfold excludePhase
  exact foldl_erase_filter _ this_events

theorem excludePhase_none (recur : Bool) (now : Time)
    (events : List (String × Event)) (this_events : List Row) :
    excludePhase none recur now events this_events = this_events := rfl

theorem searchPhase_none (recur : Bool) (now : Time)
    (events : List (String × Event)) (this_events : List Row) :
    searchPhase none recur now events this_events = this_events := rfl

theorem perform_search_ok {cfg : Config} {now : Time} {events : List (String × Event)}
    {term : String} {recur : Bool} {s? x? : Option Dict} {rows : List Row}
    (hterm : parseTerm term = .ok (s?, x?))
    (hbuild : buildThisEvents cfg now events recur = .ok rows) :
    perform_search cfg now events term recur =
      .ok (searchPhase s? recur now events (excludePhase x? recur now events rows)) := by
  unfold perform_search
  rw [hterm, hbuild]

theorem c4_example_pred (now : Time) (entry : Row) (ev : Event) :
    (!searchRemoveRow [("calendar", "work"), ("tags", "urgent")] false now entry ev) =
      (substrB "work" ev.calendar && decide ("urgent" ∈ ev.tags)) := by
  have h1 : sr_uid [("calendar", "work"), ("tags", "urgent")] entry = false := rfl
  have h2 : sr_alias [("calendar", "work"), ("tags", "urgent")] ev = false := rfl
  have h4 : srStr (dGet [("calendar", "work"), ("tags", "urgent")] "description")
      ev.description = false := rfl
  have h5 : srStr (dGet [("calendar", "work"), ("tags", "urgent")] "location")
      ev.location = false := rfl
  have h7 : sr_range (dGet [("calendar", "work"), ("tags", "urgent")] "start") false now
      entry.start ev.start = false := rfl
  have h8 : sr_range (dGet [("calendar", "work"), ("tags", "urgent")] "end") false now
      entry.«end» ev.«end» = false := rfl
  have h9 : sr_notes [("calendar", "work"), ("tags", "urgent")] ev = false := rfl
  have hgc : dGet [("calendar", "work"), ("tags", "urgent")] "calendar" = some "work" := rfl
  have hgt : dGet [("calendar", "work"), ("tags", "urgent")] "tags" = some "urgent" := rfl
  have hsplit : splitChar '+' "urgent" = ["urgent"] := rfl
  unfold searchRemoveRow
  rw [h1, h2, h4, h5, h7, h8, h9]
  simp only [Bool.false_or, Bool.or_false]
  by_cases hcal : ev.calendar = ""
  · have hS : substrB "work" ev.calendar = false := by rw [hcal]; rfl
    have hc : sr_calendar [("calendar", "work"), ("tags", "urgent")] ev = true := by
      unfold sr_calendar
      rw [hgc]
      simp [hcal]
    rw [hc]
    simp [hS]
  · have hc : sr_calendar [("calendar", "work"), ("tags", "urgent")] ev =
        !substrB "work" ev.calendar := by
      unfold sr_calendar
      rw [hgc]
      simp [hcal]
    by_cases hm : "urgent" ∈ ev.tags
    · have hne : ev.tags ≠ [] := List.ne_nil_of_mem hm
      have ht : sr_tags [("calendar", "work"), ("tags", "urgent")] ev = false := by
        unfold sr_tags
        rw [hgt]
        simp [hsplit, hm, List.isEmpty_iff, hne]
      rw [hc, ht]
      simp [hm]
    · have ht : sr_tags [("calendar", "work"), ("tags", "urgent")] ev = true := by
        unfold sr_tags
        rw [hgt]
        simp [hsplit, hm]
      rw [hc, ht]
      simp [hm]

/-- Claim C4: search semantics are AND across all provided fields.  The
first part characterises the per-row search test: a row survives it
exactly when every provided `field=value` pair matches (uid and alias
by equality, calendar/description/location/notes by substring, tags
with the inner `+`-OR, start/end by datetime range).  The second part
shows the search pass keeps exactly the surviving rows.  The third part
runs the spec's example end to end: `search="calendar=work,tags=urgent"`
keeps an event iff its calendar contains `work` and its tag set holds
`urgent`. -/
theorem claim4_search_and_semantics :
    (∀ (d : Dict) (recur : Bool) (now : Time) (entry : Row) (event : Event),
        searchRemoveRow d recur now entry event = false ↔
          ((∀ v, dGet d "uid" = some v → v ≠ "" → entry.uid ≠ "" → v = entry.uid) ∧
           (∀ v, dGet d "alias" = some v → v ≠ "" →
              ∃ a, event.«alias» = some a ∧ a ≠ "" ∧ v = a) ∧
           (∀ v, dGet d "calendar" = some v → v ≠ "" →
              event.calendar ≠ "" ∧ substrB v event.calendar = true) ∧
           (∀ v, dGet d "description" = some v → v ≠ "" →
              ∃ s, event.description = some s ∧ s ≠ "" ∧ substrB v (lowerStr s) = true) ∧
           (∀ v, dGet d "location" = some v → v ≠ "" →
              ∃ s, event.location = some s ∧ s ≠ "" ∧ substrB v (lowerStr s) = true) ∧
           (∀ v, dGet d "tags" = some v → v ≠ "" →
              event.tags ≠ [] ∧ ∃ tag ∈ splitChar '+' v, tag ∈ event.tags) ∧
           (∀ v, dGet d "start" = some v → v ≠ "" →
              (if recur then
                (_parse_dt_range now v).1 ≤ entry.start.getD 0 ∧
                  entry.start.getD 0 ≤ (_parse_dt_range now v).2
              else
                (_parse_dt_range now v).1 ≤ event.start ∧
                  event.start ≤ (_parse_dt_range now v).2)) ∧
           (∀ v, dGet d "end" = some v → v ≠ "" →
              (if recur then
                (_parse_dt_range now v).1 ≤ entry.«end».getD 0 ∧
                  entry.«end».getD 0 ≤ (_parse_dt_range now v).2
              else
                (_parse_dt_range now v).1 ≤ event.«end» ∧
                  event.«end» ≤ (_parse_dt_range now v).2)) ∧
           (∀ v, dGet d "notes" = some v → v ≠ "" →
              ∃ n, event.notes = some n ∧ n ≠ "" ∧
                substrB (lowerStr v) (lowerStr n) = true))) ∧
    (∀ (d : Dict) (recur : Bool) (now : Time) (events : List (String × Event))
        (this_events : List Row),
        searchPhase (some d) recur now events this_events =
          this_events.filter
            (fun en => !searchRemoveRow d recur now en (eventFor events en.uid))) ∧
    (∀ (cfg : Config) (now : Time) (events : List (String × Event)) (rows : List Row),
        buildThisEvents cfg now events false = .ok rows →
        perform_search cfg now events "calendar=work,tags=urgent" false =
          .ok (rows.filter (fun en =>
            substrB "work" (eventFor events en.uid).calendar &&
              decide ("urgent" ∈ (eventFor events en.uid).tags)))) := by
  refine ⟨?_, searchPhase_eq_filter, ?_⟩
  · intro d recur now entry event
    unfold searchRemoveRow
    simp only [Bool.or_eq_false_iff]
    rw [sr_uid_eq_false, sr_alias_eq_false, sr_calendar_eq_false, srStr_eq_false,
      srStr_eq_false, sr_tags_eq_false, sr_range_eq_false, sr_range_eq_false,
      sr_notes_eq_false]
    simp only [and_assoc]
  · intro cfg now events rows hrows
    have hterm : parseTerm "calendar=work,tags=urgent" =
        .ok (some [("calendar", "work"), ("tags", "urgent")], none) := by decide
    rw [perform_search_ok hterm hrows, excludePhase_none, searchPhase_eq_filter]
    exact congrArg Except.ok
      (List.filter_congr (fun en _ => c4_example_pred now en (eventFor events en.uid)))

/-- Claim C4, witness: the end-to-end example evaluated on a concrete
two-event store - only the `work`-calendar event tagged `urgent`
survives. -/
theorem claim4_witness :
    buildThisEvents ⟨250, 6, 30⟩ 0
        [("u1", {calendar := "work", tags := ["urgent"], start := 0, «end» := 3600}),
         ("u2", {calendar := "personal", tags := ["home"], start := 7200, «end» := 10800})]
        false =
      .ok [⟨"u1", some 0, some 3600⟩, ⟨"u2", some 7200, some 10800⟩] ∧
    perform_search ⟨250, 6, 30⟩ 0
        [("u1", {calendar := "work", tags := ["urgent"], start := 0, «end» := 3600}),
         ("u2", {calendar := "personal", tags := ["home"], start := 7200, «end» := 10800})]
        "calendar=work,tags=urgent" false =
      .ok ([⟨"u1", some 0, some 3600⟩, ⟨"u2", some 7200, some 10800⟩].filter (fun en =>
        substrB "work" (eventFor
            [("u1", {calendar := "work", tags := ["urgent"], start := 0, «end» := 3600}),
             ("u2", {calendar := "personal", tags := ["home"], start := 7200, «end» := 10800})]
            en.uid).calendar &&
          decide ("urgent" ∈ (eventFor
            [("u1", {calendar := "work", tags := ["urgent"], start := 0, «end» := 3600}),
             ("u2", {calendar := "personal", tags := ["home"], start := 7200, «end» := 10800})]
            en.uid).tags))) :=
  ⟨by decide,
   claim4_search_and_semantics.2.2 ⟨250, 6, 30⟩ 0
     [("u1", {calendar := "work", tags := ["urgent"], start := 0, «end» := 3600}),
      ("u2", {calendar := "personal", tags := ["home"], start := 7200, «end» := 10800})]
     [⟨"u1", some 0, some 3600⟩, ⟨"u2", some 7200, some 10800⟩] (by decide)⟩

theorem c5_example_pred (now : Time) (entry : Row) (ev : Event) :
    (!excludeRemoveRow [("calendar", "personal"), ("tags", "private")] false now entry ev) =
      (!(substrB "personal" ev.calendar || decide ("private" ∈ ev.tags))) := by
  have h1 : xr_uid [("calendar", "personal"), ("tags", "private")] entry = false := rfl
  have h2 : xr_alias [("calendar", "personal"), ("tags", "private")] ev = false := by
    unfold xr_alias
    cases ev.«alias» <;> rfl
  have h4 : xrStr (dGet [("calendar", "personal"), ("tags", "private")] "description")
      ev.description = false := by
    unfold xrStr
    cases ev.description <;> rfl
  have h5 : xrStr (dGet [("calendar", "personal"), ("tags", "private")] "location")
      ev.location = false := by
    unfold xrStr
    cases ev.location <;> rfl
  have h7 : xr_range (dGet [("calendar", "personal"), ("tags", "private")] "start") false now
      entry.start ev.start = false := rfl
  have h8 : xr_range (dGet [("calendar", "personal"), ("tags", "private")] "end") false now
      entry.«end» ev.«end» = false := rfl
  have h9 : xr_notes [("calendar", "personal"), ("tags", "private")] ev = false := by
    unfold xr_notes
    cases ev.notes <;> rfl
  have hgc : dGet [("calendar", "personal"), ("tags", "private")] "calendar" =
      some "personal" := rfl
  have hgt : dGet [("calendar", "personal"), ("tags", "private")] "tags" =
      some "private" := rfl
  have hsplit : splitChar '+' "private" = ["private"] := rfl
  unfold excludeRemoveRow
  rw [h1, h2, h4, h5, h7, h8, h9]
  simp only [Bool.false_or, Bool.or_false]
  have htags : xr_tags [("calendar", "personal"), ("tags", "private")] ev =
      decide ("private" ∈ ev.tags) := by
    unfold xr_tags
    rw [hgt]
    by_cases hm : "private" ∈ ev.tags
    · have hne : ev.tags ≠ [] := List.ne_nil_of_mem hm
      simp [hsplit, hm, List.isEmpty_iff, hne]
    · simp [hsplit, hm]
  by_cases hcal : ev.calendar = ""
  · have hS : substrB "personal" ev.calendar = false := by rw [hcal]; rfl
    have hc : xr_calendar [("calendar", "personal"), ("tags", "private")] ev = false := by
      unfold xr_calendar
      rw [hgc]
      simp [hcal]
    rw [hc, htags, hS]
  · have hc : xr_calendar [("calendar", "personal"), ("tags", "private")] ev =
        substrB "personal" ev.calendar := by
      unfold xr_calendar
      rw [hgc]
      simp [hcal]
    rw [hc, htags]

/-- Claim C5: exclude semantics are OR across all provided fields.  The
first part characterises the per-row exclude test: a row is flagged
exactly when at least one provided `field=value` pair matches.  The
second part shows the exclude pass drops exactly the flagged rows.  The
third part runs the spec's example end to end:
`...%calendar=personal,tags=private` drops an event iff its calendar
contains `personal` or it has the tag `private`. -/
theorem claim5_exclude_or_semantics :
    (∀ (d : Dict) (recur : Bool) (now : Time) (entry : Row) (event : Event),
        excludeRemoveRow d recur now entry event = true ↔
          ((∃ v, dGet d "uid" = some v ∧ v ≠ "" ∧ entry.uid ≠ "" ∧ v = entry.uid) ∨
           (∃ v a, dGet d "alias" = some v ∧ event.«alias» = some a ∧
              v ≠ "" ∧ a ≠ "" ∧ v = a) ∨
           (∃ v, dGet d "calendar" = some v ∧ v ≠ "" ∧
              event.calendar ≠ "" ∧ substrB v event.calendar = true) ∨
           (∃ v s, dGet d "description" = some v ∧ event.description = some s ∧
              v ≠ "" ∧ s ≠ "" ∧ substrB v (lowerStr s) = true) ∨
           (∃ v s, dGet d "location" = some v ∧ event.location = some s ∧
              v ≠ "" ∧ s ≠ "" ∧ substrB v (lowerStr s) = true) ∨
           (∃ v, dGet d "tags" = some v ∧ v ≠ "" ∧ event.tags ≠ [] ∧
              ∃ tag ∈ splitChar '+' v, tag ∈ event.tags) ∨
           (∃ v, dGet d "start" = some v ∧ v ≠ "" ∧
              (if recur then
                (_parse_dt_range now v).1 ≤ entry.start.getD 0 ∧
                  entry.start.getD 0 ≤ (_parse_dt_range now v).2
              else
                (_parse_dt_range now v).1 ≤ event.start ∧
                  event.start ≤ (_parse_dt_range now v).2)) ∨
           (∃ v, dGet d "end" = some v ∧ v ≠ "" ∧
              (if recur then
                (_parse_dt_range now v).1 ≤ entry.«end».getD 0 ∧
                  entry.«end».getD 0 ≤ (_parse_dt_range now v).2
              else
                (_parse_dt_range now v).1 ≤ event.«end» ∧
                  event.«end» ≤ (_parse_dt_range now v).2)) ∨
           (∃ v n, dGet d "notes" = some v ∧ event.notes = some n ∧
              v ≠ "" ∧ n ≠ "" ∧ substrB v n = true))) ∧
    (∀ (d : Dict) (recur : Bool) (now : Time) (events : List (String × Event))
        (this_events : List Row),
        excludePhase (some d) recur now events this_events =
          this_events.filter
            (fun en => !excludeRemoveRow d recur now en (eventFor events en.uid))) ∧
    (∀ (cfg : Config) (now : Time) (events : List (String × Event)) (rows : List Row),
        buildThisEvents cfg now events false = .ok rows →
        perform_search cfg now events "any%calendar=personal,tags=private" false =
          .ok (rows.filter (fun en =>
            !(substrB "personal" (eventFor events en.uid).calendar ||
              decide ("private" ∈ (eventFor events en.uid).tags))))) := by
  refine ⟨?_, excludePhase_eq_filter, ?_⟩
  · intro d recur now entry event
    unfold excludeRemoveRow
    simp only [Bool.or_eq_true]
    rw [xr_uid_eq_true, xr_alias_eq_true, xr_calendar_eq_true, xrStr_eq_true,
      xrStr_eq_true, xr_tags_eq_true, xr_range_eq_true, xr_range_eq_true,
      xr_notes_eq_true]
    simp only [or_assoc]
  · intro cfg now events rows hrows
    have hterm : parseTerm "any%calendar=personal,tags=private" =
        .ok (none, some [("calendar", "personal"), ("tags", "private")]) := by decide
    rw [perform_search_ok hterm hrows, excludePhase_eq_filter, searchPhase_none]
    exact congrArg Except.ok
      (List.filter_congr (fun en _ => c5_example_pred now en (eventFor events en.uid)))

/-- Claim C5, witness: the end-to-end example evaluated on a concrete
two-event store - the `personal`-calendar event is dropped, the `work`
event kept. -/
theorem claim5_witness :
    buildThisEvents ⟨250, 6, 30⟩ 0
        [("u1", {calendar := "work", tags := ["urgent"], start := 0, «end» := 3600}),
         ("u2", {calendar := "personal", tags := ["private"], start := 7200, «end» := 10800})]
        false =
      .ok [⟨"u1", some 0, some 3600⟩, ⟨"u2", some 7200, some 10800⟩] ∧
    perform_search ⟨250, 6, 30⟩ 0
        [("u1", {calendar := "work", tags := ["urgent"], start := 0, «end» := 3600}),
         ("u2", {calendar := "personal", tags := ["private"], start := 7200, «end» := 10800})]
        "any%calendar=personal,tags=private" false =
      .ok ([⟨"u1", some 0, some 3600⟩, ⟨"u2", some 7200, some 10800⟩].filter (fun en =>
        !(substrB "personal" (eventFor
            [("u1", {calendar := "work", tags := ["urgent"], start := 0, «end» := 3600}),
             ("u2", {calendar := "personal", tags := ["private"], start := 7200, «end» := 10800})]
            en.uid).calendar ||
          decide ("private" ∈ (eventFor
            [("u1", {calendar := "work", tags := ["urgent"], start := 0, «end» := 3600}),
             ("u2", {calendar := "personal", tags := ["private"], start := 7200, «end» := 10800})]
            en.uid).tags)))) :=
  ⟨by decide,
   claim5_exclude_or_semantics.2.2 ⟨250, 6, 30⟩ 0
     [("u1", {calendar := "work", tags := ["urgent"], start := 0, «end» := 3600}),
      ("u2", {calendar := "personal", tags := ["private"], start := 7200, «end» := 10800})]
     [⟨"u1", some 0, some 3600⟩, ⟨"u2", some 7200, some 10800⟩] (by decide)⟩

/-- Claim C6, counterexample: a daily event anchored at time 0 whose
next occurrence (computed with `includePast = false`) is `86400`, inside
the queried range `[86400, 172799]` - yet `perform_search` with
`recur = false` returns nothing, because the range predicate is
evaluated against the event's own stored start `0`, not against the next
occurrence; with `recur = true` the same query keeps the occurrence. -/
theorem claim6_counterexample :
    calc_next_recurrence ⟨250, 6, 30⟩ 50000 {freq := some "DAILY", count := some 2} 0 3600 =
        (some 86400, some 90000) ∧
      _parse_dt_range 50000 "86400" = (86400, 172799) ∧
      perform_search ⟨250, 6, 30⟩ 50000
          [("u3", {start := 0, «end» := 3600, rrule := some {freq := some "DAILY", count := some 2}})]
          "start=86400" false = .ok [] ∧
      perform_search ⟨250, 6, 30⟩ 50000
          [("u3", {start := 0, «end» := 3600, rrule := some {freq := some "DAILY", count := some 2}})]
          "start=86400" true = .ok [⟨"u3", some 86400, some 90000⟩] :=
  ⟨by decide, by decide, by decide, by decide⟩

/-- Claim C6, as amended: when `recur = false` the `start=`/`end=`
range predicates are evaluated against the event's own stored
start/end - the row's start and end (which carry the computed next
occurrence) are ignored by both the search and the exclude tests - and
only when `recur = true` are they evaluated against the occurrence
row's start/end. -/
theorem claim6_range_match_basis :
    (∀ (d : Dict) (now : Time) (u : String) (s1 e1 s2 e2 : Option Time) (ev : Event),
        searchRemoveRow d false now ⟨u, s1, e1⟩ ev =
          searchRemoveRow d false now ⟨u, s2, e2⟩ ev ∧
        excludeRemoveRow d false now ⟨u, s1, e1⟩ ev =
          excludeRemoveRow d false now ⟨u, s2, e2⟩ ev) ∧
    (∀ (v : String) (now : Time) (entry : Row) (ev : Event), v ≠ "" →
        (searchRemoveRow [("start", v)] false now entry ev = false ↔
          (_parse_dt_range now v).1 ≤ ev.start ∧ ev.start ≤ (_parse_dt_range now v).2)) ∧
    (∀ (v : String) (now : Time) (u : String) (s : Time) (e : Option Time) (ev : Event),
        v ≠ "" →
        (searchRemoveRow [("start", v)] true now ⟨u, some s, e⟩ ev = false ↔
          (_parse_dt_range now v).1 ≤ s ∧ s ≤ (_parse_dt_range now v).2)) := by
  refine ⟨fun d now u s1 e1 s2 e2 ev => ⟨rfl, rfl⟩, ?_, ?_⟩
  · intro v now entry ev hv
    have h1 : sr_uid [("start", v)] entry = false := rfl
    have h2 : sr_alias [("start", v)] ev = false := rfl
    have h3 : sr_calendar [("start", v)] ev = false := rfl
    have h4 : srStr (dGet [("start", v)] "description") ev.description = false := rfl
    have h5 : srStr (dGet [("start", v)] "location") ev.location = false := rfl
    have h6 : sr_tags [("start", v)] ev = false := rfl
    have h8 : sr_range (dGet [("start", v)] "end") false now entry.«end» ev.«end» = false := rfl
    have h9 : sr_notes [("start", v)] ev = false := rfl
    have hg : dGet [("start", v)] "start" = some v := rfl
    unfold searchRemoveRow
    rw [h1, h2, h3, h4, h5, h6, h8, h9]
    simp only [Bool.false_or, Bool.or_false]
    unfold sr_range
    rw [hg]
    simp [hv]
  · intro v now u s e ev hv
    have h1 : sr_uid [("start", v)] (⟨u, some s, e⟩ : Row) = false := rfl
    have h2 : sr_alias [("start", v)] ev = false := rfl
    have h3 : sr_calendar [("start", v)] ev = false := rfl
    have h4 : srStr (dGet [("start", v)] "description") ev.description = false := rfl
    have h5 : srStr (dGet [("start", v)] "location") ev.location = false := rfl
    have h6 : sr_tags [("start", v)] ev = false := rfl
    have h8 : sr_range (dGet [("start", v)] "end") true now
        (⟨u, some s, e⟩ : Row).«end» ev.«end» = false := rfl
    have h9 : sr_notes [("start", v)] ev = false := rfl
    have hg : dGet [("start", v)] "start" = some v := rfl
    unfold searchRemoveRow
    rw [h1, h2, h3, h4, h5, h6, h8, h9]
    simp only [Bool.false_or, Bool.or_false]
    unfold sr_range
    rw [hg]
    simp [hv]

/-- Claim C6, witness: the amended characterisation applied at the
counterexample's data - a query for `start=86400` against an event
stored at `100000` with `recur = false` tests `100000` against the
range, regardless of the row's occurrence times. -/
theorem claim6_witness :
    searchRemoveRow [("start", "86400")] false 0 ⟨"u", none, none⟩
        {start := 100000, «end» := 103600} = false ↔
      (_parse_dt_range 0 "86400").1 ≤ (100000 : Time) ∧
        (100000 : Time) ≤ (_parse_dt_range 0 "86400").2 :=
  claim6_range_match_basis.2.1 "86400" 0 ⟨"u", none, none⟩
    {start := 100000, «end» := 103600} (by decide)

end Nrrddate
